import Mathlib

/-!
# Verification of the uhu package build-and-sync engine

A shallow embedding, in Lean 4, of the parts of the `uhu` repository that
its specification makes claims about: the V1 request-signing transform,
the object model (`uhu/core/_base.py`), the package push/pull protocol
(`uhu/core/package.py`), and the installation-set manager.

Bytes are `Nat` (each `< 256`), byte strings are `List Nat`, 32-bit
machine words are `Nat` reduced modulo `2^32` at every operation that can
overflow. The filesystem is a partial map from filename to byte content;
HTTP traffic is modelled by environments describing the server's responses
and by explicit event traces of the requests a routine issues.
-/

set_option maxRecDepth 4000

namespace Uhu

/-! ## Bytes and hex encoding -/

/-- Byte content of an ASCII string, one `Nat` per character. -/
def strBytes (s : String) : List Nat :=
  s.data.map Char.toNat

/-- Lower-case hex character for a value below 16: `0..9` then `a..f`. -/
def hexChar (n : Nat) : Char :=
  if n < 10 then Char.ofNat (48 + n) else Char.ofNat (87 + n)

/-- Lower-case hex encoding of a byte string, two characters per byte,
as produced by Python's `hexdigest()`. -/
def bytesToHex (bs : List Nat) : String :=
  ⟨bs.foldr (fun b acc => hexChar (b / 16) :: hexChar (b % 16) :: acc) []⟩

/-! ## SHA-256 (FIPS 180-4), over `Nat` words reduced mod `2^32` -/

/-- The SHA-256 word modulus, `2^32`. -/
def w32 : Nat := 4294967296

/-- Right rotation of a 32-bit word (input assumed `< 2^32`). -/
def rotr (n x : Nat) : Nat :=
  ((x >>> n) ||| (x <<< (32 - n))) % w32

/-- SHA-256 `Ch` function. -/
def ch (x y z : Nat) : Nat :=
  (x &&& y) ^^^ ((x ^^^ (w32 - 1)) &&& z)

/-- SHA-256 `Maj` function. -/
def maj (x y z : Nat) : Nat :=
  (x &&& y) ^^^ (x &&& z) ^^^ (y &&& z)

/-- SHA-256 `Σ₀`. -/
def bsig0 (x : Nat) : Nat := rotr 2 x ^^^ rotr 13 x ^^^ rotr 22 x

/-- SHA-256 `Σ₁`. -/
def bsig1 (x : Nat) : Nat := rotr 6 x ^^^ rotr 11 x ^^^ rotr 25 x

/-- SHA-256 `σ₀`. -/
def ssig0 (x : Nat) : Nat := rotr 7 x ^^^ rotr 18 x ^^^ (x >>> 3)

/-- SHA-256 `σ₁`. -/
def ssig1 (x : Nat) : Nat := rotr 17 x ^^^ rotr 19 x ^^^ (x >>> 10)

/-- The eight SHA-256 initial hash values (FIPS 180-4 §5.3.3, here in
decimal). -/
def sha256init : List Nat :=
  [1779033703, 3144134277, 1013904242, 2773480762,
   1359893119, 2600822924, 528734635, 1541459225]

/-- The 64 SHA-256 round constants (FIPS 180-4 §4.2.2, here in
decimal). -/
def sha256k : List Nat :=
  [1116352408, 1899447441, 3049323471, 3921009573,
   961987163, 1508970993, 2453635748, 2870763221,
   3624381080, 310598401, 607225278, 1426881987,
   1925078388, 2162078206, 2614888103, 3248222580,
   3835390401, 4022224774, 264347078, 604807628,
   770255983, 1249150122, 1555081692, 1996064986,
   2554220882, 2821834349, 2952996808, 3210313671,
   3336571891, 3584528711, 113926993, 338241895,
   666307205, 773529912, 1294757372, 1396182291,
   1695183700, 1986661051, 2177026350, 2456956037,
   2730485921, 2820302411, 3259730800, 3345764771,
   3516065817, 3600352804, 4094571909, 275423344,
   430227734, 506948616, 659060556, 883997877,
   958139571, 1322822218, 1537002063, 1747873779,
   1955562222, 2024104815, 2227730452, 2361852424,
   2428436474, 2756734187, 3204031479, 3329325298]

/-- Big-endian 8-byte encoding of a length field. -/
def be64 (n : Nat) : List Nat :=
  [(n >>> 56) % 256, (n >>> 48) % 256, (n >>> 40) % 256, (n >>> 32) % 256,
   (n >>> 24) % 256, (n >>> 16) % 256, (n >>> 8) % 256, n % 256]

/-- Big-endian 4-byte encoding of a 32-bit word. -/
def be32 (n : Nat) : List Nat :=
  [(n >>> 24) % 256, (n >>> 16) % 256, (n >>> 8) % 256, n % 256]

/-- SHA-256 padding: append `0x80`, zero bytes to 56 mod 64, and the
64-bit big-endian bit length. -/
def sha256pad (msg : List Nat) : List Nat :=
  let z := (119 - msg.length % 64) % 64
  msg ++ 0x80 :: List.replicate z 0 ++ be64 (8 * msg.length)

/-- Group bytes into big-endian 32-bit words (input length a multiple of 4). -/
def bytesToWords : List Nat → List Nat
  | a :: b :: c :: d :: rest => (((a * 256 + b) * 256 + c) * 256 + d) :: bytesToWords rest
  | _ => []

/-- Split a word list into 16-word blocks; `fuel` bounds the recursion and
is instantiated with the list length. -/
def toBlocksFuel : Nat → List Nat → List (List Nat)
  | 0, _ => []
  | _, [] => []
  | fuel + 1, ws => ws.take 16 :: toBlocksFuel fuel (ws.drop 16)

/-- Split a word list into 16-word blocks. -/
def toBlocks (ws : List Nat) : List (List Nat) :=
  toBlocksFuel ws.length ws

/-- Iterate a function `n` times. -/
def iterN (f : α → α) : Nat → α → α
  | 0, a => a
  | n + 1, a => iterN f n (f a)

/-- One message-schedule extension step: append `w[i]` computed from the
last 16 words. -/
def schedStep (w : List Nat) : List Nat :=
  let n := w.length
  w ++ [(ssig1 (w.getD (n - 2) 0) + w.getD (n - 7) 0 +
         ssig0 (w.getD (n - 15) 0) + w.getD (n - 16) 0) % w32]

/-- Extend a 16-word block to the 64-word message schedule. -/
def sched (block : List Nat) : List Nat :=
  iterN schedStep 48 block

/-- One SHA-256 compression round, acting on the 8-word working state. -/
def sha256round (st : List Nat) (kw : Nat × Nat) : List Nat :=
  match st with
  | [a, b, c, d, e, f, g, h] =>
    let t1 := (h + bsig1 e + ch e f g + kw.1 + kw.2) % w32
    let t2 := (bsig0 a + maj a b c) % w32
    [(t1 + t2) % w32, a, b, c, (d + t1) % w32, e, f, g]
  | other => other

/-- SHA-256 compression of one 16-word block into the running hash. -/
def sha256compress (h : List Nat) (block : List Nat) : List Nat :=
  let st := (sha256k.zip (sched block)).foldl sha256round h
  (h.zip st).map (fun p => (p.1 + p.2) % w32)

/-- SHA-256 digest of a byte string, as 32 bytes. -/
def sha256 (msg : List Nat) : List Nat :=
  (((toBlocks (bytesToWords (sha256pad msg))).foldl
    sha256compress sha256init).map be32).flatten

/-- SHA-256 digest of a byte string, as lower-case hex (Python
`hashlib.sha256(...).hexdigest()`). -/
def sha256hex (msg : List Nat) : String :=
  bytesToHex (sha256 msg)

/-! ## HMAC-SHA256 (FIPS 198-1) -/

/-- HMAC-SHA256 digest bytes of `msg` under `key`. -/
def hmacSha256 (key msg : List Nat) : List Nat :=
  let k0 := if key.length > 64 then sha256 key else key
  let k1 := k0 ++ List.replicate (64 - k0.length) 0
  let ipad := k1.map (fun b => b ^^^ 0x36)
  let opad := k1.map (fun b => b ^^^ 0x5c)
  sha256 (opad ++ sha256 (ipad ++ msg))

/-- HMAC-SHA256 of `msg` under `key`, hex-encoded (Python
`hmac.new(key, msg, sha256).hexdigest()`). -/
def hmacSha256hex (key msg : List Nat) : String :=
  bytesToHex (hmacSha256 key msg)

/-! ## V1 request signing

The signing module's source (`efu/http/auth.py`, class `EFOTAV1Signature`)
is not part of the sources at hand; only its unit tests
(`tests/http_/test_auth.py`) are. The transform is therefore modelled from
the spec (§4.5) and pinned against the constants those tests assert. -/

/-- Decimal digit character of `n mod 10`. -/
def decDigit (n : Nat) : Char :=
  hexChar (n % 10)

/-- Two-digit zero-padded decimal rendering (strftime `%m`, `%d`, ...). -/
def pad2 (n : Nat) : String :=
  ⟨[decDigit (n / 10), decDigit n]⟩

/-- Four-digit zero-padded decimal rendering (strftime `%Y`). -/
def pad4 (n : Nat) : String :=
  ⟨[decDigit (n / 1000), decDigit (n / 100), decDigit (n / 10), decDigit n]⟩

/-- A UTC timestamp, as carried by the request object. -/
structure UTCDateTime where
  year : Nat
  month : Nat
  day : Nat
  hour : Nat
  minute : Nat
  second : Nat
deriving DecidableEq

/-- Modelled from the spec: the strict `YYYYMMDDTHHMMSSZ` UTC rendering of
the request timestamp. -/
def formatTimestamp (t : UTCDateTime) : String :=
  pad4 t.year ++ pad2 t.month ++ pad2 t.day ++ "T" ++
    pad2 t.hour ++ pad2 t.minute ++ pad2 t.second ++ "Z"

/-- Modelled from the spec: the date-only `YYYYMMDD` portion of the
timestamp. -/
def formatDate (t : UTCDateTime) : String :=
  pad4 t.year ++ pad2 t.month ++ pad2 t.day

/-- ASCII lower-casing of one character. -/
def lowerChar (c : Char) : Char :=
  if 65 ≤ c.toNat ∧ c.toNat ≤ 90 then Char.ofNat (c.toNat + 32) else c

/-- ASCII lower-casing of a string (Python `str.lower` on header names). -/
def lowerString (s : String) : String :=
  ⟨s.data.map lowerChar⟩

/-- Concatenate strings with a separator (Python `sep.join`). -/
def joinWith (sep : String) : List String → String
  | [] => ""
  | [x] => x
  | x :: xs => x ++ sep ++ joinWith sep xs

/-- Lexicographic strict order on byte lists. -/
def lexLt : List Nat → List Nat → Bool
  | [], [] => false
  | [], _ :: _ => true
  | _ :: _, [] => false
  | u :: us, w :: ws => if u < w then true else if u = w then lexLt us ws else false

/-- Python's string ordering: lexicographic by character code points. -/
def strLtB (s t : String) : Bool :=
  lexLt (strBytes s) (strBytes t)

/-- Insert a string into a sorted list, keeping it sorted. -/
def insertSorted (s : String) : List String → List String
  | [] => [s]
  | x :: xs => if strLtB s x then s :: x :: xs else x :: insertSorted s xs

/-- Lexicographic insertion sort, as Python's `sorted` on strings. -/
def sortStrings (l : List String) : List String :=
  l.foldr insertSorted []

/-- The part of an outgoing HTTP request the signature consumes: the
opaque canonical string, the request timestamp, and the header names. -/
structure SigRequest where
  canonical : String
  date : UTCDateTime
  headers : List String

/-- Modelled from the spec: SHA-256 of the canonical request, hex
(`_hashed_canonical_request`). -/
def hashedCanonicalRequest (r : SigRequest) : String :=
  sha256hex (strBytes r.canonical)

/-- Modelled from the spec: the sorted `;`-joined lowercase header names
(`_signed_headers`). -/
def signedHeaders (r : SigRequest) : String :=
  joinWith ";" (sortStrings (r.headers.map lowerString))

/-- Modelled from the spec: the 3-line message of scheme id, timestamp and
canonical-request hash (`_message`). -/
def sigMessage (r : SigRequest) : String :=
  "EFOTA-V1" ++ "\n" ++ formatTimestamp r.date ++ "\n" ++ hashedCanonicalRequest r

/-- Modelled from the spec and pinned by the repository's `test_key`: the
signing key is HMAC-SHA256, hex-encoded, keyed by the scheme-prefixed
secret string `"EFOTA-V1-" ++ secret`, over the date-only portion of the
timestamp (`_key`). -/
def sigKey (secret : String) (r : SigRequest) : String :=
  hmacSha256hex (strBytes ("EFOTA-V1-" ++ secret)) (strBytes (formatDate r.date))

/-- Modelled from the spec: the final signature hash, HMAC-SHA256 keyed by
the (hex-encoded) signing key over the 3-line message (`_signature_hash`). -/
def sigHash (secret : String) (r : SigRequest) : String :=
  hmacSha256hex (strBytes (sigKey secret r)) (strBytes (sigMessage r))

/-- Modelled from the spec: the emitted authorization value (`signature`). -/
def efotaV1Signature (r : SigRequest) (accessId secret : String) : String :=
  "EFOTA-V1 Credential=" ++ accessId ++
    ", SignedHeaders=" ++ signedHeaders r ++
    ", Signature=" ++ sigHash secret r

/-- Modelled from the claim's words, for comparison with `sigKey`: a
signing key derived via HMAC-SHA256 keyed by the shared secret alone. -/
def claimSigKey (secret : String) (r : SigRequest) : String :=
  hmacSha256hex (strBytes secret) (strBytes (formatDate r.date))

/-- Modelled from the claim's words, for comparison with
`efotaV1Signature`: the authorization value produced when the signing key
is derived from the shared secret alone. -/
def claimV1Signature (r : SigRequest) (accessId secret : String) : String :=
  "EFOTA-V1 Credential=" ++ accessId ++
    ", SignedHeaders=" ++ signedHeaders r ++
    ", Signature=" ++ hmacSha256hex (strBytes (claimSigKey secret r))
      (strBytes (sigMessage r))

/-- The fixed request of the signing test vector: canonical request
`"000"`, timestamp 1970-01-01T00:00:00Z, headers foo, Host, Timestamp,
bar. -/
def fixedSigRequest : SigRequest :=
  { canonical := "000"
    date := ⟨1970, 1, 1, 0, 0, 0⟩
    headers := ["foo", "Host", "Timestamp", "bar"] }

/-! ## Option values and option maps

`uhu` object option values are JSON scalars; an object's `_values` is a
mapping from option (identified here by its metadata key) to value. -/

/-- A JSON-scalar option value. -/
inductive Value
  | str (s : String)
  | nat (n : Nat)
  | bool (b : Bool)
deriving DecidableEq

/-- An option-key/value mapping, insertion ordered, as a Python dict. -/
abbrev ValMap := List (String × Value)

/-- Look up a key (first, and with unique keys only, occurrence). -/
def lookupVal (k : String) : ValMap → Option Value
  | [] => none
  | (k', v) :: rest => if k' == k then some v else lookupVal k rest

/-- Remove a key (Python `dict.pop`). -/
def removeVal (k : String) (m : ValMap) : ValMap :=
  m.filter (fun p => !(p.1 == k))

/-- Set a key to a value: replace in place when present, append when new
(Python `dict.__setitem__`). -/
def setVal (k : String) (v : Value) (m : ValMap) : ValMap :=
  if (lookupVal k m).isSome then
    m.map (fun p => if p.1 == k then (k, v) else p)
  else m ++ [(k, v)]

/-! ## The option registry and option validation

The option catalog (`uhu/core/_options.py`) and `validate_options`
(`uhu/core/validators.py`) are not among the sources at hand; they are
modelled from the spec (§3 "Option", §4.1): an option is a named field
descriptor with a metadata key, a `volatile` flag (volatile options are
excluded from the template), a `required` flag and an optional default;
validation fails on an unregistered key or a missing required option and
returns the fully resolved value mapping (given values completed with
declared defaults). Per-value type validators are not modelled: every
claim exercises only well-typed values. -/

/-- Modelled from the spec: a named, typed field descriptor. -/
structure OptionDef where
  metadata : String
  volatile : Bool
  required : Bool
  dflt : Option Value
deriving DecidableEq

/-- A mode of objects: its name, capability flags and declared options
(`BaseObject` subclass attributes after `ObjectType` registration). -/
structure ObjMode where
  mode : String
  allowCompression : Bool
  allowInstallCondition : Bool
  options : List OptionDef
deriving DecidableEq

/-- The metadata keys declared by a mode. -/
def declaredKeys (m : ObjMode) : List String :=
  m.options.map (·.metadata)

/-- Whether a mode's option named `k` is volatile (false for unknown
keys). -/
def isVolatileKey (m : ObjMode) (k : String) : Bool :=
  match m.options.find? (fun o => o.metadata == k) with
  | some o => o.volatile
  | none => false

/-- Modelled from the spec: the first given key that is not a registered
option of the mode. -/
def findUnknown (m : ObjMode) (vals : ValMap) : Option (String × Value) :=
  vals.find? (fun p => !(declaredKeys m).contains p.1)

/-- Modelled from the spec: the first required option with no given
value and no default. -/
def findMissingRequired (m : ObjMode) (vals : ValMap) : Option OptionDef :=
  m.options.find? (fun o =>
    o.required && (lookupVal o.metadata vals).isNone && o.dflt.isNone)

/-- Modelled from the spec: the resolved entry of one declared option —
its given value, else its default, else absent. -/
def resolveEntry (vals : ValMap) (o : OptionDef) : Option (String × Value) :=
  match lookupVal o.metadata vals with
  | some v => some (o.metadata, v)
  | none => o.dflt.map (fun d => (o.metadata, d))

/-- Modelled from the spec: the fully resolved value mapping — each
declared option takes its given value, else its default, else is absent. -/
def resolveOptions (m : ObjMode) (vals : ValMap) : ValMap :=
  m.options.filterMap (resolveEntry vals)

/-- Modelled from the spec: `validate_options` — fail on an unknown key
or missing required option, otherwise return the resolved mapping. -/
def validateOptions (m : ObjMode) (vals : ValMap) : Except String ValMap :=
  match findUnknown m vals with
  | some p => .error ("You must provide a registered option: " ++ p.1)
  | none =>
    match findMissingRequired m vals with
    | some o => .error ("Missing required option: " ++ o.metadata)
    | none => .ok (resolveOptions m vals)

/-! ## Filesystem -/

/-- The local filesystem: filename to byte content, `none` when the file
does not exist. -/
abbrev FS := String → Option (List Nat)

/-- Write (create or overwrite) one file. -/
def fsWrite (fs : FS) (fn : String) (content : List Nat) : FS :=
  fun f => if f = fn then some content else fs f

/-! ## Objects (`uhu/core/_base.py`, class `BaseObject`) -/

/-- An object: its mode, its validated option values, and the chunk size
read from the chunking configuration at construction. The `md5` attribute
(used only for the upload etag) is not modelled. -/
structure Obj where
  modeDef : ObjMode
  values : ValMap
  chunkSize : Nat
deriving DecidableEq

/-- `BaseObject.__init__`: validate the given values and store the
resolved mapping. -/
def createObj (m : ObjMode) (chunkSize : Nat) (vals : ValMap) : Except String Obj :=
  (validateOptions m vals).map (fun v => ⟨m, v, chunkSize⟩)

/-- The `filename` property: the object's filename option. -/
def Obj.fname (o : Obj) : String :=
  match lookupVal "filename" o.values with
  | some (.str s) => s
  | _ => ""

/-- The stored `sha256sum` option, as a string. -/
def Obj.shaStr (o : Obj) : String :=
  match lookupVal "sha256sum" o.values with
  | some (.str s) => s
  | _ => ""

/-- The `exists` property: whether the object's file exists. -/
def Obj.fileExists (fs : FS) (o : Obj) : Bool :=
  (fs o.fname).isSome

/-- Split a byte string into `chunkSize`-sized chunks (`__iter__`); `fuel`
bounds the recursion and is instantiated with the content length. -/
def chunksFuel (chunkSize : Nat) : Nat → List Nat → List (List Nat)
  | 0, _ => []
  | _, [] => []
  | fuel + 1, c => c.take chunkSize :: chunksFuel chunkSize fuel (c.drop chunkSize)

/-- The chunk iteration of an object's content. -/
def objChunks (chunkSize : Nat) (content : List Nat) : List (List Nat) :=
  chunksFuel chunkSize content.length content

/-- An object-layer I/O error (Python `FileNotFoundError` from `open`). -/
structure ObjIOError where
  filename : String
deriving DecidableEq

/-- `BaseObject.load`: stream the file in chunks, accumulate the SHA-256
digest, and store `sha256sum` and `size` (the MD5 side value is not
modelled). -/
def Obj.load (fs : FS) (o : Obj) : Except ObjIOError Obj :=
  match fs o.fname with
  | none => .error ⟨o.fname⟩
  | some content =>
    let digest := sha256hex ((objChunks o.chunkSize content).flatten)
    .ok { o with
      values := setVal "size" (.nat content.length)
        (setVal "sha256sum" (.str digest) o.values) }

/-- `BaseObject._metadata_install_condition` for the `always` and
`content-diverges` conditions: pop `install-condition`; for
`content-diverges` add `install-if-different = "sha256sum"`. The
`version-diverges` branch calls `get_version` (image-header parsing,
source not at hand) and is outside every claim; here it only pops the
condition key. -/
def metadataInstallCondition (allowIC : Bool) (m : ValMap) : ValMap :=
  if allowIC then
    let condition := lookupVal "install-condition" m
    let m' := removeVal "install-condition" m
    match condition with
    | some (.str "content-diverges") => setVal "install-if-different" (.str "sha256sum") m'
    | _ => m'
  else m

/-! ## Compression sniffing

`get_compressor_format` and `get_uncompressed_size` live in
`uhu/utils.py`, which is not among the sources at hand. They are modelled
from the spec (§3 "Compression metadata"): the format is sniffed from the
file's header bytes against known container signatures, and the
uncompressed size is computed where the format stores it — for gzip, the
trailing 4-byte little-endian `ISIZE` field. The xz/lzo/tar-of-gzip size
paths are outside every claim and are left uncomputed here. -/

/-- Known compressed-container formats. -/
inductive CompressorFormat
  | gzip
  | xz
  | lzo
deriving DecidableEq

/-- Whether `p` is an initial segment of `c`. -/
def startsWithBytes : List Nat → List Nat → Bool
  | [], _ => true
  | _ :: _, [] => false
  | u :: us, w :: ws => u == w && startsWithBytes us ws

/-- The gzip magic bytes. -/
def gzipMagic : List Nat := [0x1f, 0x8b]

/-- The xz magic bytes. -/
def xzMagic : List Nat := [0xfd, 0x37, 0x7a, 0x58, 0x5a, 0x00]

/-- The lzop magic bytes. -/
def lzoMagic : List Nat := [0x89, 0x4c, 0x5a, 0x4f, 0x00, 0x0d, 0x0a, 0x1a, 0x0a]

/-- Modelled from the spec: sniff the header bytes of a file against the
known compressed-container signatures. -/
def getCompressorFormat (fs : FS) (fn : String) : Option CompressorFormat :=
  match fs fn with
  | none => none
  | some c =>
    if startsWithBytes gzipMagic c then some .gzip
    else if startsWithBytes xzMagic c then some .xz
    else if startsWithBytes lzoMagic c then some .lzo
    else none

/-- Little-endian 32-bit value of 4 bytes. -/
def le32 : List Nat → Nat
  | [a, b, c, d] => a + 256 * (b + 256 * (c + 256 * d))
  | _ => 0

/-- The last `n` bytes of a byte string. -/
def lastBytes (n : Nat) (c : List Nat) : List Nat :=
  c.drop (c.length - n)

/-- Modelled from the spec: the uncompressed size of a recognized
container — the gzip trailer's little-endian `ISIZE` field (a minimal
gzip member is 18 bytes); `none` for an unrecognized file, and for the
xz/lzo size paths, which no claim exercises. -/
def getUncompressedSize (fs : FS) (fn : String) : Option CompressorFormat → Option Nat
  | some .gzip =>
    match fs fn with
    | some c => if c.length ≥ 18 then some (le32 (lastBytes 4 c)) else none
    | none => none
  | _ => none

/-- `BaseObject._metadata_compression`: in a compression-allowing mode,
when the uncompressed size of the current filename's content is known,
add `compressed = True` and `required-uncompressed-size`. -/
def metadataCompression (fs : FS) (o : Obj) (m : ValMap) : ValMap :=
  if o.modeDef.allowCompression then
    match getUncompressedSize fs o.fname (getCompressorFormat fs o.fname) with
    | some size =>
      setVal "required-uncompressed-size" (.nat size) (setVal "compressed" (.bool true) m)
    | none => m
  else m

/-- `BaseObject.metadata`: run `load`, serialize every option value plus
the mode, then apply the install-condition and compression transforms. -/
def Obj.metadata (fs : FS) (o : Obj) : Except ObjIOError ValMap :=
  (o.load fs).map (fun o' =>
    metadataCompression fs o'
      (metadataInstallCondition o.modeDef.allowInstallCondition
        (setVal "mode" (.str o.modeDef.mode) o'.values)))

/-- Whether a value entry belongs to the template: its option is not
volatile. -/
def nonVolatileEntry (m : ObjMode) (p : String × Value) : Bool :=
  !(isVolatileKey m p.1)

/-- `BaseObject.template`: the non-volatile option values plus the mode;
defined without reference to the filesystem — it never reads file
content. -/
def Obj.template (o : Obj) : ValMap :=
  setVal "mode" (.str o.modeDef.mode)
    (o.values.filter (nonVolatileEntry o.modeDef))

/-- `BaseObject.update` / `__setitem__`: apply the single-key change and
re-validate the whole option set. -/
def Obj.update (o : Obj) (k : String) (v : Value) : Except String Obj :=
  (validateOptions o.modeDef (setVal k v o.values)).map
    (fun vals => { o with values := vals })

/-! ## Object download (`BaseObject.download`) -/

/-- A download-layer error, carrying the user-facing message. -/
structure DownloadError where
  msg : String
deriving DecidableEq

/-- An HTTP response to a GET of an object payload. -/
structure NetResponse where
  ok : Bool
  content : List Nat
  text : String

/-- The network: URL to response, `none` for a connection error. -/
abbrev Net := String → Option NetResponse

/-- `BaseObject.download`: return immediately when the local file exists;
otherwise GET the url and stream the body to the file. Results are the
resulting filesystem and the list of requested URLs. -/
def Obj.download (fs : FS) (o : Obj) (url : String) (net : Net) :
    (Except DownloadError FS) × List String :=
  if o.fileExists fs then (.ok fs, [])
  else
    match net url with
    | none => (.error ⟨"Can't reach the server."⟩, [url])
    | some r =>
      if !r.ok then
        (.error ⟨"It was not possible to download object:\n" ++ r.text⟩, [url])
      else
        (.ok (fsWrite fs o.fname ((objChunks o.chunkSize r.content).flatten)), [url])

/-! ## Package pull (`uhu/core/package.py`) -/

/-- `Package.get_download_list`: a missing local file is queued for
download; an existing file is re-hashed — a divergent hash aborts with a
"will be overwritten" error, an equal hash skips the object. -/
def getDownloadList (fs : FS) : List Obj → Except DownloadError (List Obj)
  | [] => .ok []
  | o :: rest =>
    match fs o.fname with
    | none => (getDownloadList fs rest).map (o :: ·)
    | some content =>
      if some (Value.str (sha256hex ((objChunks o.chunkSize content).flatten))) ≠
          lookupVal "sha256sum" o.values then
        .error ⟨o.fname ++ " will be overwritten"⟩
      else
        getDownloadList fs rest

/-- `get_server_url`: the configured server address plus a path. -/
def getServerUrl (server path : String) : String :=
  server ++ path

/-- The object download URL path used by `download_objects`. -/
def objectUrl (uid sha : String) : String :=
  "/packages/" ++ uid ++ "/objects/" ++ sha

/-- The download loop of `Package.download_objects`, threading the
filesystem and accumulating requested URLs. -/
def downloadLoop (net : Net) (server uid : String) :
    List Obj → FS → List String → FS × Except DownloadError Unit × List String
  | [], fs, reqs => (fs, .ok (), reqs)
  | o :: rest, fs, reqs =>
    match Obj.download fs o (getServerUrl server (objectUrl uid o.shaStr)) net with
    | (.error e, r) => (fs, .error e, reqs ++ r)
    | (.ok fs', r) => downloadLoop net server uid rest fs' (reqs ++ r)

/-- `Package.download_objects`: compute the download list, then download
each object in it. -/
def downloadObjects (fs : FS) (net : Net) (server uid : String)
    (objs : List Obj) : FS × Except DownloadError Unit × List String :=
  match getDownloadList fs objs with
  | .error e => (fs, .error e, [])
  | .ok list => downloadLoop net server uid list fs []

/-! ## Package push (`uhu/core/package.py`) -/

/-- An upload-layer error, carrying the user-facing message. -/
structure UploadError where
  msg : String
deriving DecidableEq

/-- Modelled from the spec: `ObjectUploadResult` of `uhu/core/upload.py` —
an object upload ends as already-existing (server answered 200),
successfully transferred, or failed. -/
inductive ObjUploadResult
  | existed
  | success
  | failure
deriving DecidableEq

/-- Modelled from the spec: `ObjectUploadResult.is_ok` — EXISTS and
SUCCESS are successful outcomes, FAIL is not. -/
def ObjUploadResult.isOk : ObjUploadResult → Bool
  | .failure => false
  | _ => true

/-- The server's response to the metadata POST. -/
structure MetadataResponse where
  status : Nat
  uid : String
  errors : List String

/-- The server-side behaviour a push runs against: the metadata response,
the outcome of each per-object upload of installation set 0, and the
finalize response. -/
structure PushEnv where
  metadataResponse : MetadataResponse
  objectResults : List ObjUploadResult
  finishStatus : Nat
  finishText : String

/-- The HTTP requests a push issues, in order. -/
inductive PushEvent
  | postMetadata
  | objectUpload (idx : Nat)
  | finishPut
deriving DecidableEq

/-- The package attributes the push protocol touches. -/
structure PackageState where
  uid : Option String
  version : Option String
  product : Option String
deriving DecidableEq

/-- Join strings with newlines (Python `'\n'.join`). -/
def joinLines (l : List String) : String :=
  joinWith "\n" l

/-- `Package.upload_metadata`: POST the metadata; on a non-201 status
raise an upload error carrying the server's error list and leave the
state untouched; on 201 store the server-issued uid. -/
def uploadMetadata (env : PushEnv) (st : PackageState) :
    PackageState × Except UploadError Unit × List PushEvent :=
  if env.metadataResponse.status ≠ 201 then
    (st, .error ⟨"It was not possible to start pushing:\n" ++
      joinLines env.metadataResponse.errors⟩, [.postMetadata])
  else
    ({ st with uid := some env.metadataResponse.uid }, .ok (), [.postMetadata])

/-- `Package.upload_objects`: upload every object of installation set 0,
collecting the results, then raise if any result is not ok. -/
def uploadObjects (env : PushEnv) : Except UploadError Unit × List PushEvent :=
  let events := (List.range env.objectResults.length).map PushEvent.objectUpload
  if env.objectResults.all ObjUploadResult.isOk then (.ok (), events)
  else (.error ⟨"Some objects has not been fully uploaded"⟩, events)

/-- `Package.finish_push`: PUT the finalize URL; non-204 is an error. -/
def finishPush (env : PushEnv) : Except UploadError Unit × List PushEvent :=
  if env.finishStatus ≠ 204 then
    (.error ⟨"Push failed\n" ++ env.finishText⟩, [.finishPut])
  else (.ok (), [.finishPut])

/-- `Package.push`: metadata upload, then object uploads, then finalize,
each phase gating the next; the event list records every issued request. -/
def push (env : PushEnv) (st : PackageState) :
    PackageState × Except UploadError Unit × List PushEvent :=
  match uploadMetadata env st with
  | (st', .error e, ev) => (st', .error e, ev)
  | (st', .ok _, ev1) =>
    match uploadObjects env with
    | (.error e, ev2) => (st', .error e, ev1 ++ ev2)
    | (.ok _, ev2) =>
      match finishPush env with
      | (.error e, ev3) => (st', .error e, ev1 ++ ev2 ++ ev3)
      | (.ok _, ev3) => (st', .ok (), ev1 ++ ev2 ++ ev3)

/-! ## Installation set manager

`InstallationSetManager` (`efu/core/installation_set.py`) is not among
the sources at hand; only its unit tests are. It is modelled from the
spec (§3 "InstallationSetManager", §4.3): `Single` holds one object
collection and the set index is implicit (0) when omitted;
`ActiveInactive` holds two and omitting the index is a missing-argument
error (Python `TypeError`), reported distinctly from out-of-range
addressing (`ValueError`). -/

/-- The two installation-set topologies. -/
inductive SetMode
  | single
  | activeInactive
deriving DecidableEq

/-- A manager-held object, as the tests view it: filename, mode name and
options. -/
structure SetObj where
  filename : String
  mode : String
  options : ValMap
deriving DecidableEq

/-- The installation set manager: its topology and its object sets. -/
structure InstallationSetManager where
  mode : SetMode
  sets : List (List SetObj)
deriving DecidableEq

/-- Modelled from the spec: a fresh manager holds one empty set in
`Single` mode and two in `ActiveInactive` mode. -/
def newManager : SetMode → InstallationSetManager
  | .single => ⟨.single, [[]]⟩
  | .activeInactive => ⟨.activeInactive, [[], []]⟩

/-- A manager addressing error: a missing-argument (`TypeError`) or an
out-of-range (`ValueError`) error. -/
inductive MgrError
  | typeError (msg : String)
  | valueError (msg : String)
deriving DecidableEq

/-- Modelled from the spec: resolve the optional installation-set index —
implicit 0 in `Single` mode, mandatory in `ActiveInactive` mode. -/
def resolveSetIndex (m : InstallationSetManager) : Option Nat → Except MgrError Nat
  | none =>
    match m.mode with
    | .single => .ok 0
    | .activeInactive => .error (.typeError "You must specify an installation set index")
  | some i => .ok i

/-- Modelled from the spec: fetch an installation set by index; out of
range is a `ValueError`. -/
def getInstallationSet (m : InstallationSetManager) (i : Nat) :
    Except MgrError (List SetObj) :=
  match m.sets.get? i with
  | some s => .ok s
  | none => .error (.valueError "Installation set not found")

/-- Modelled from the spec: `create` — append a new object to the
addressed set, returning the new manager and the object's position. -/
def mgrCreate (m : InstallationSetManager) (filename mode : String)
    (options : ValMap) (index : Option Nat) :
    Except MgrError (InstallationSetManager × Nat) := do
  let i ← resolveSetIndex m index
  let s ← getInstallationSet m i
  .ok ({ m with sets := m.sets.set i (s ++ [⟨filename, mode, options⟩]) }, s.length)

/-- Modelled from the spec: `get` — fetch the object at a position of the
addressed set. -/
def mgrGet (m : InstallationSetManager) (objIndex : Nat) (index : Option Nat) :
    Except MgrError SetObj := do
  let i ← resolveSetIndex m index
  let s ← getInstallationSet m i
  match s.get? objIndex with
  | some o => .ok o
  | none => .error (.valueError "Object not found")

/-- Modelled from the spec: `update` — update one option of the object at
a position of the addressed set. -/
def mgrUpdate (m : InstallationSetManager) (objIndex : Nat) (key : String)
    (v : Value) (index : Option Nat) : Except MgrError InstallationSetManager := do
  let i ← resolveSetIndex m index
  let s ← getInstallationSet m i
  match s.get? objIndex with
  | some o =>
    .ok { m with
      sets := m.sets.set i (s.set objIndex { o with options := setVal key v o.options }) }
  | none => .error (.valueError "Object not found")

/-- Modelled from the spec: `remove` — delete the object at a position of
the addressed set; an absent position is a "does not exist" error. -/
def mgrRemove (m : InstallationSetManager) (objIndex : Nat) (index : Option Nat) :
    Except MgrError InstallationSetManager := do
  let i ← resolveSetIndex m index
  let s ← getInstallationSet m i
  if objIndex < s.length then
    .ok { m with sets := m.sets.set i (s.eraseIdx objIndex) }
  else .error (.valueError "Object does not exist")

/-! ## Concrete fixtures

Small concrete modes, files and objects, used to instantiate the
theorems below at closed inputs. -/

/-- The byte content `b"spam"` of the sample file. -/
def spamBytes : List Nat := [115, 112, 97, 109]

/-- `hashlib.sha256(b"spam").hexdigest()`, as the repository's own test
suite records it. -/
def spamSha : String :=
  "4e388ab32b10dc8dbc7e28144f552830adc74787c1e2c0824032078a79f227fb"

/-- A 20-byte gzip member: magic, deflate method, empty flags, a deflate
body, and a trailer whose final 4 bytes (`ISIZE`, little-endian) record
the plaintext length 4. -/
def gzipSample : List Nat :=
  [0x1f, 0x8b, 0x08, 0, 0, 0, 0, 0, 0, 3,
   0x2b, 0x2e, 0x48, 0xcc, 0x05, 0, 4, 0, 0, 0]

/-- A ubifs-like witness mode: no capability flags; `filename` and
`volume` required, hash and size volatile. -/
def ubifsMode : ObjMode :=
  { mode := "ubifs"
    allowCompression := false
    allowInstallCondition := false
    options := [
      ⟨"filename", false, true, none⟩,
      ⟨"volume", false, true, none⟩,
      ⟨"sha256sum", true, false, none⟩,
      ⟨"size", true, false, none⟩] }

/-- A raw-like witness mode allowing compression: the compression options
injected by `ObjectType` are volatile with no default, and
`install-condition` defaults to `always`. -/
def rawMode : ObjMode :=
  { mode := "raw"
    allowCompression := true
    allowInstallCondition := true
    options := [
      ⟨"filename", false, true, none⟩,
      ⟨"target-type", false, true, none⟩,
      ⟨"target", false, true, none⟩,
      ⟨"install-condition", false, false, some (.str "always")⟩,
      ⟨"sha256sum", true, false, none⟩,
      ⟨"size", true, false, none⟩,
      ⟨"compressed", true, false, none⟩,
      ⟨"required-uncompressed-size", true, false, none⟩] }

/-- A sample filesystem: `base.txt` holds `b"spam"`, `base.txt.gz` the
sample gzip member; nothing else exists. -/
def sampleFS : FS := fun f =>
  if f == "base.txt" then some spamBytes
  else if f == "base.txt.gz" then some gzipSample
  else none

/-- A sample ubifs object over `base.txt`, with the matching stored hash
and chunk size 2. -/
def sampleObj : Obj :=
  { modeDef := ubifsMode
    values := [("filename", .str "base.txt"), ("volume", .str "system"),
               ("sha256sum", .str spamSha)]
    chunkSize := 2 }

/-- A sample raw object over the gzip sample file. -/
def sampleGzipObj : Obj :=
  { modeDef := rawMode
    values := [("filename", .str "base.txt.gz"), ("target-type", .str "device"),
               ("target", .str "/dev/sda"), ("install-condition", .str "always")]
    chunkSize := 1 }

/-- The object a successful `load` over the given content produces: the
original object with `sha256sum` and `size` freshly set. -/
def loadedWith (o : Obj) (content : List Nat) : Obj :=
  { o with
    values := setVal "size" (.nat content.length)
      (setVal "sha256sum" (.str (sha256hex content)) o.values) }

/-- A sample raw object over the uncompressed `base.txt`. -/
def plainRawObj : Obj :=
  { modeDef := rawMode
    values := [("filename", .str "base.txt"), ("target-type", .str "device"),
               ("target", .str "/"), ("install-condition", .str "always")]
    chunkSize := 1 }

/-- A sample object whose stored hash diverges from the local
`base.txt`. -/
def divergentObj : Obj :=
  { modeDef := ubifsMode
    values := [("filename", .str "base.txt"), ("volume", .str "v"),
               ("sha256sum", .str "deadbeef")]
    chunkSize := 2 }

/-! ## Association map lemmas -/

/-- Looking up in a concatenation searches the left part first. -/
theorem lookupVal_append (k : String) (m₁ m₂ : ValMap) :
    lookupVal k (m₁ ++ m₂) =
      (match lookupVal k m₁ with
       | some v => some v
       | none => lookupVal k m₂) := by
  induction m₁ with
  | nil => simp [lookupVal]
  | cons p rest ih =>
    obtain ⟨k', v⟩ := p
    by_cases h : k' == k <;> simp [lookupVal, h, ih]

/-- A key absent from the key list is not found. -/
theorem lookupVal_eq_none_of_not_mem (k : String) (m : ValMap)
    (h : k ∉ m.map Prod.fst) : lookupVal k m = none := by
  induction m with
  | nil => rfl
  | cons p rest ih =>
    obtain ⟨k', v⟩ := p
    simp only [List.map_cons, List.mem_cons] at h
    push_neg at h
    have hk : (k' == k) = false :=
      beq_eq_false_iff_ne.mpr (Ne.symm h.1)
    simp only [lookupVal, hk, Bool.false_eq_true, if_false]
    exact ih h.2

/-- Unfolding a lookup at a cons cell. -/
theorem lookupVal_cons (k k₀ : String) (w : Value) (rest : ValMap) :
    lookupVal k ((k₀, w) :: rest) =
      (if (k₀ == k) = true then some w else lookupVal k rest) := rfl

/-- Reduce an `if` over a boolean known to be true. -/
theorem ite_beq_true {α : Sort u} {c : Bool} (h : c = true) (a b : α) :
    (if c = true then a else b) = a := by
  rw [h]
  simp

/-- Reduce an `if` over a boolean known to be false. -/
theorem ite_beq_false {α : Sort u} {c : Bool} (h : c = false) (a b : α) :
    (if c = true then a else b) = b := by
  rw [h]
  simp

/-- Replacing the entries of one key: looking up that key yields the new
value exactly when the key was present. -/
theorem lookupVal_replace (k : String) (v : Value) (m : ValMap) :
    lookupVal k (m.map (fun p => if p.1 == k then (k, v) else p)) =
      (if (lookupVal k m).isSome then some v else none) := by
  induction m with
  | nil => rfl
  | cons p rest ih =>
    obtain ⟨k', w⟩ := p
    rw [List.map_cons]
    cases h : (k' == k) with
    | true =>
      rw [ite_beq_true rfl, lookupVal_cons, ite_beq_true (beq_self_eq_true k),
        lookupVal_cons, ite_beq_true h]
      rfl
    | false =>
      rw [ite_beq_false rfl, lookupVal_cons, ite_beq_false h,
        lookupVal_cons, ite_beq_false h]
      exact ih

/-- Replacing the entries of another key leaves a lookup unchanged. -/
theorem lookupVal_replace_ne (k k' : String) (v : Value) (m : ValMap)
    (h : k ≠ k') :
    lookupVal k (m.map (fun p => if p.1 == k' then (k', v) else p)) =
      lookupVal k m := by
  have hk : (k' == k) = false := beq_eq_false_iff_ne.mpr (Ne.symm h)
  induction m with
  | nil => rfl
  | cons p rest ih =>
    obtain ⟨k₀, w⟩ := p
    rw [List.map_cons]
    cases h0 : (k₀ == k') with
    | true =>
      have hk0 : (k₀ == k) = false := by
        rw [beq_iff_eq] at h0
        subst h0
        exact hk
      rw [ite_beq_true rfl, lookupVal_cons, ite_beq_false hk,
        lookupVal_cons, ite_beq_false hk0]
      exact ih
    | false =>
      rw [ite_beq_false rfl, lookupVal_cons, lookupVal_cons]
      cases hk0 : (k₀ == k) with
      | true => rw [ite_beq_true rfl, ite_beq_true rfl]
      | false =>
        rw [ite_beq_false rfl, ite_beq_false rfl]
        exact ih

/-- Setting a key makes it look up to the new value. -/
theorem lookupVal_setVal_self (k : String) (v : Value) (m : ValMap) :
    lookupVal k (setVal k v m) = some v := by
  unfold setVal
  cases hl : lookupVal k m with
  | some w =>
    simp only [hl, Option.isSome_some, if_true]
    rw [lookupVal_replace, hl]
    rfl
  | none =>
    simp only [hl, Option.isSome_none, Bool.false_eq_true, if_false]
    rw [lookupVal_append, hl]
    simp [lookupVal]

/-- Setting one key leaves the lookup of another unchanged. -/
theorem lookupVal_setVal_ne (k k' : String) (v : Value) (m : ValMap)
    (h : k ≠ k') : lookupVal k (setVal k' v m) = lookupVal k m := by
  unfold setVal
  cases hs : lookupVal k' m with
  | some w =>
    simp only [hs, Option.isSome_some, if_true]
    exact lookupVal_replace_ne k k' v m h
  | none =>
    simp only [hs, Option.isSome_none, Bool.false_eq_true, if_false]
    rw [lookupVal_append]
    have hk : (k' == k) = false := beq_eq_false_iff_ne.mpr (Ne.symm h)
    cases hm : lookupVal k m <;> simp [hm, lookupVal, hk]

/-- Removing another key leaves a lookup unchanged. -/
theorem lookupVal_removeVal_ne (k k' : String) (m : ValMap) (h : k ≠ k') :
    lookupVal k (removeVal k' m) = lookupVal k m := by
  induction m with
  | nil => rfl
  | cons p rest ih =>
    obtain ⟨k₀, w⟩ := p
    cases h0 : (k₀ == k') with
    | true =>
      have hk0 : (k₀ == k) = false := by
        rw [beq_iff_eq] at h0
        subst h0
        exact beq_eq_false_iff_ne.mpr (Ne.symm h)
      simp only [removeVal, List.filter_cons, h0, Bool.not_true,
        Bool.false_eq_true, if_false] at ih ⊢
      rw [← removeVal] at ih ⊢
      simp only [lookupVal, hk0, Bool.false_eq_true, if_false]
      exact ih
    | false =>
      simp only [removeVal, List.filter_cons, h0, Bool.not_false, if_true] at ih ⊢
      rw [← removeVal] at ih ⊢
      cases hk0 : (k₀ == k) with
      | true => simp [lookupVal, hk0]
      | false => simp [lookupVal, hk0, ih]

/-- The install-condition transform does not touch other keys. -/
theorem lookupVal_metadataInstallCondition (k : String) (a : Bool) (m : ValMap)
    (h1 : k ≠ "install-condition") (h2 : k ≠ "install-if-different") :
    lookupVal k (metadataInstallCondition a m) = lookupVal k m := by
  unfold metadataInstallCondition
  cases a with
  | false => rfl
  | true =>
    simp only [if_true]
    split
    · rw [lookupVal_setVal_ne _ _ _ _ h2, lookupVal_removeVal_ne _ _ _ h1]
    · rw [lookupVal_removeVal_ne _ _ _ h1]

/-- The compression transform does not touch other keys. -/
theorem lookupVal_metadataCompression (k : String) (fs : FS) (o : Obj)
    (m : ValMap) (h1 : k ≠ "compressed")
    (h2 : k ≠ "required-uncompressed-size") :
    lookupVal k (metadataCompression fs o m) = lookupVal k m := by
  unfold metadataCompression
  cases ha : o.modeDef.allowCompression with
  | false => rfl
  | true =>
    simp only [if_true]
    split
    · rw [lookupVal_setVal_ne _ _ _ _ h2, lookupVal_setVal_ne _ _ _ _ h1]
    · rfl

/-! ## Chunk iteration lemmas -/

/-- With enough fuel, flattening the chunks of a byte string gives it
back. -/
theorem chunksFuel_flatten (cs : Nat) (hcs : 0 < cs) :
    ∀ (fuel : Nat) (c : List Nat), c.length ≤ fuel →
      (chunksFuel cs fuel c).flatten = c := by
  intro fuel
  induction fuel with
  | zero =>
    intro c hc
    rw [List.length_eq_zero.mp (Nat.le_zero.mp hc)]
    rfl
  | succ n ih =>
    intro c hc
    cases c with
    | nil => rfl
    | cons a as =>
      rw [chunksFuel, List.flatten_cons, ih]
      · exact List.take_append_drop cs (a :: as)
      · rw [List.length_drop]
        have h1 : 1 ≤ cs := hcs
        have h2 : (a :: as).length ≤ n + 1 := hc
        omega
      · intro hnil
        cases hnil

/-- Re-assembling an object's chunk iteration yields the file content. -/
theorem objChunks_flatten (cs : Nat) (c : List Nat) (hcs : 0 < cs) :
    (objChunks cs c).flatten = c :=
  chunksFuel_flatten cs hcs c.length c (Nat.le_refl _)

/-! ## Claim theorems -/

/-- Claim C10: for every object whose filename exists as a local file,
`download` returns at once: no HTTP request is issued (the request list
is empty) and the filesystem — in particular the existing file's
content — is returned unchanged, whatever the url and the network
behaviour. -/
theorem download_skips_existing_file (fs : FS) (o : Obj) (url : String)
    (net : Net) (c : List Nat) (h : fs o.fname = some c) :
    Obj.download fs o url net = (.ok fs, []) := by
  unfold Obj.download Obj.fileExists
  rw [h]
  rfl

/-- Witness for C10: downloading the sample object over an existing local
`base.txt` touches neither the network nor the filesystem. -/
theorem download_skips_existing_file_witness :
    Obj.download sampleFS sampleObj "http://server/url" (fun _ => none) =
      (.ok sampleFS, []) :=
  download_skips_existing_file sampleFS sampleObj "http://server/url"
    (fun _ => none) spamBytes rfl

/-- Claim C5: `upload_metadata` assigns `uid` only on a 201 response — on
any other status it raises an upload error carrying the server's error
list and leaves the package state (uid included) unchanged; on 201 it
stores the server-issued uid. -/
theorem upload_metadata_uid (env : PushEnv) (st : PackageState) :
    (env.metadataResponse.status ≠ 201 →
      uploadMetadata env st =
        (st, .error ⟨"It was not possible to start pushing:\n" ++
          joinLines env.metadataResponse.errors⟩, [.postMetadata])) ∧
    (env.metadataResponse.status = 201 →
      uploadMetadata env st =
        ({ st with uid := some env.metadataResponse.uid }, .ok (), [.postMetadata])) := by
  constructor
  · intro h
    unfold uploadMetadata
    rw [if_pos h]
  · intro h
    unfold uploadMetadata
    rw [if_neg (by simp [h])]

/-- Witness for C5: a 400 response leaves the state unchanged and carries
the error list; a 201 response stores the uid. -/
theorem upload_metadata_uid_witness :
    uploadMetadata ⟨⟨400, "ignored", ["invalid metadata"]⟩, [], 204, ""⟩
        ⟨none, some "2.0", some "prod"⟩ =
      (⟨none, some "2.0", some "prod"⟩,
       .error ⟨"It was not possible to start pushing:\n" ++
         joinLines ["invalid metadata"]⟩, [.postMetadata]) ∧
    uploadMetadata ⟨⟨201, "pkg-uid-1", []⟩, [], 204, ""⟩
        ⟨none, some "2.0", some "prod"⟩ =
      (⟨some "pkg-uid-1", some "2.0", some "prod"⟩, .ok (), [.postMetadata]) :=
  ⟨(upload_metadata_uid ⟨⟨400, "ignored", ["invalid metadata"]⟩, [], 204, ""⟩
      ⟨none, some "2.0", some "prod"⟩).1 (by decide),
   (upload_metadata_uid ⟨⟨201, "pkg-uid-1", []⟩, [], 204, ""⟩
      ⟨none, some "2.0", some "prod"⟩).2 rfl⟩

/-- Claim C2: in `push`, a non-201 metadata response aborts with an
upload error before any per-object upload or finalize request is issued
(the trace is exactly the metadata POST); and when the metadata upload
succeeds but some object upload returns a failure result, `push` raises
an upload error even though every object upload request was issued (the
trace holds one upload per object, and the uid was assigned) and the
finalize PUT is never reached. -/
theorem push_sequencing (env : PushEnv) (st : PackageState) :
    (env.metadataResponse.status ≠ 201 →
      push env st =
        (st, .error ⟨"It was not possible to start pushing:\n" ++
          joinLines env.metadataResponse.errors⟩, [.postMetadata])) ∧
    (env.metadataResponse.status = 201 →
      ObjUploadResult.failure ∈ env.objectResults →
      push env st =
        ({ st with uid := some env.metadataResponse.uid },
         .error ⟨"Some objects has not been fully uploaded"⟩,
         .postMetadata ::
           (List.range env.objectResults.length).map PushEvent.objectUpload)) := by
  constructor
  · intro h
    unfold push uploadMetadata
    rw [if_pos h]
  · intro h hmem
    have hall : env.objectResults.all ObjUploadResult.isOk = false := by
      cases hb : env.objectResults.all ObjUploadResult.isOk with
      | false => rfl
      | true =>
        exact absurd (List.all_eq_true.mp hb ObjUploadResult.failure hmem)
          (by decide)
    unfold push uploadMetadata uploadObjects
    rw [if_neg (by simp [h]), ite_beq_false hall]
    rfl

/-- Witness for C2: a 500 metadata response yields only the metadata
POST; a 201 followed by one failed object upload out of two yields the
metadata POST, both object uploads, an assigned uid and no finalize. -/
theorem push_sequencing_witness :
    push ⟨⟨500, "ignored", ["boom"]⟩, [], 204, ""⟩ ⟨none, none, none⟩ =
      (⟨none, none, none⟩,
       .error ⟨"It was not possible to start pushing:\n" ++ joinLines ["boom"]⟩,
       [.postMetadata]) ∧
    push ⟨⟨201, "pkg-uid-2", []⟩, [.success, .failure], 204, ""⟩ ⟨none, none, none⟩ =
      (⟨some "pkg-uid-2", none, none⟩,
       .error ⟨"Some objects has not been fully uploaded"⟩,
       .postMetadata :: (List.range 2).map PushEvent.objectUpload) :=
  ⟨(push_sequencing ⟨⟨500, "ignored", ["boom"]⟩, [], 204, ""⟩
      ⟨none, none, none⟩).1 (by decide),
   (push_sequencing ⟨⟨201, "pkg-uid-2", []⟩, [.success, .failure], 204, ""⟩
      ⟨none, none, none⟩).2 rfl (by decide)⟩

/-- Claim C4 (amended): in `ActiveInactive` mode every
`create`/`get`/`update`/`remove` call that omits the installation-set
index fails with the missing-argument (`TypeError`-class) error; in
`Single` mode an explicit index 0 is accepted and behaves exactly as the
omitted index — the index is defaulted, not required to be absent. -/
theorem installation_set_index_rules (m : InstallationSetManager)
    (fn md : String) (opts : ValMap) (oi : Nat) (k : String) (v : Value) :
    (m.mode = .activeInactive →
      mgrCreate m fn md opts none =
        .error (.typeError "You must specify an installation set index") ∧
      mgrGet m oi none =
        .error (.typeError "You must specify an installation set index") ∧
      mgrUpdate m oi k v none =
        .error (.typeError "You must specify an installation set index") ∧
      mgrRemove m oi none =
        .error (.typeError "You must specify an installation set index")) ∧
    (m.mode = .single →
      mgrCreate m fn md opts (some 0) = mgrCreate m fn md opts none ∧
      mgrGet m oi (some 0) = mgrGet m oi none ∧
      mgrUpdate m oi k v (some 0) = mgrUpdate m oi k v none ∧
      mgrRemove m oi (some 0) = mgrRemove m oi none) := by
  constructor
  · intro h
    refine ⟨?_, ?_, ?_, ?_⟩ <;>
      simp [mgrCreate, mgrGet, mgrUpdate, mgrRemove, resolveSetIndex, h,
        Bind.bind, Except.bind]
  · intro h
    refine ⟨?_, ?_, ?_, ?_⟩ <;>
      simp [mgrCreate, mgrGet, mgrUpdate, mgrRemove, resolveSetIndex, h]

/-- Witness for C4: a fresh `ActiveInactive` manager rejects each indexless
call with the `TypeError`-class error, and a fresh `Single` manager
treats an explicit index 0 exactly as an omitted one. -/
theorem installation_set_index_rules_witness :
    (mgrCreate (newManager .activeInactive) "f.bin" "raw" [] none =
        .error (.typeError "You must specify an installation set index") ∧
      mgrGet (newManager .activeInactive) 0 none =
        .error (.typeError "You must specify an installation set index") ∧
      mgrUpdate (newManager .activeInactive) 0 "target" (.str "/dev/sdb") none =
        .error (.typeError "You must specify an installation set index") ∧
      mgrRemove (newManager .activeInactive) 0 none =
        .error (.typeError "You must specify an installation set index")) ∧
    (mgrCreate (newManager .single) "f.bin" "raw" [] (some 0) =
        mgrCreate (newManager .single) "f.bin" "raw" [] none ∧
      mgrGet (newManager .single) 0 (some 0) = mgrGet (newManager .single) 0 none ∧
      mgrUpdate (newManager .single) 0 "target" (.str "/dev/sdb") (some 0) =
        mgrUpdate (newManager .single) 0 "target" (.str "/dev/sdb") none ∧
      mgrRemove (newManager .single) 0 (some 0) =
        mgrRemove (newManager .single) 0 none) :=
  ⟨(installation_set_index_rules (newManager .activeInactive) "f.bin" "raw" []
      0 "target" (.str "/dev/sdb")).1 rfl,
   (installation_set_index_rules (newManager .single) "f.bin" "raw" []
      0 "target" (.str "/dev/sdb")).2 rfl⟩

/-- Counterexample to C4 as stated: in `Single` mode the identical call
with an explicit installation-set index 0 does not fail — it succeeds and
appends the object. -/
theorem single_mode_explicit_index_succeeds :
    mgrCreate (newManager .single) "file.bin" "raw" [] (some 0) =
      .ok (⟨.single, [[⟨"file.bin", "raw", []⟩]]⟩, 0) := rfl

/-! ## Validation inversion lemmas -/

/-- A successful validation passes both checks and resolves the values. -/
theorem validateOptions_ok_inversion (m : ObjMode) (vals w : ValMap)
    (h : validateOptions m vals = .ok w) :
    findUnknown m vals = none ∧ findMissingRequired m vals = none ∧
      w = resolveOptions m vals := by
  unfold validateOptions at h
  cases hfu : findUnknown m vals with
  | some p =>
    simp only [hfu] at h
    cases h
  | none =>
    simp only [hfu] at h
    cases hfm : findMissingRequired m vals with
    | some q =>
      simp only [hfm] at h
      cases h
    | none =>
      simp only [hfm] at h
      injection h with h
      exact ⟨rfl, rfl, h.symm⟩

/-- A successful creation inverts to the resolved object. -/
theorem createObj_ok_inversion (m : ObjMode) (cs : Nat) (vals : ValMap)
    (o : Obj) (h : createObj m cs vals = .ok o) :
    findUnknown m vals = none ∧ findMissingRequired m vals = none ∧
      o = ⟨m, resolveOptions m vals, cs⟩ := by
  unfold createObj at h
  cases hv : validateOptions m vals with
  | error e =>
    simp only [hv, Except.map] at h
    cases h
  | ok w =>
    simp only [hv, Except.map] at h
    injection h with h
    obtain ⟨h1, h2, h3⟩ := validateOptions_ok_inversion m vals w hv
    exact ⟨h1, h2, by rw [← h, h3]⟩

/-! ## Keyed filterMap lemmas

These lemmas treat any entry-producing function whose emitted key is the
option's metadata key — `resolveEntry vals` and its filtered variants. -/

/-- A resolved entry is keyed by its option's metadata key. -/
theorem resolveEntry_key (vals : ValMap) (od : OptionDef) (p : String × Value)
    (h : resolveEntry vals od = some p) : p.1 = od.metadata := by
  unfold resolveEntry at h
  cases hmv : lookupVal od.metadata vals with
  | some v =>
    simp only [hmv] at h
    injection h with h
    rw [← h]
  | none =>
    simp only [hmv] at h
    cases hd : od.dflt with
    | none =>
      rw [hd, Option.map_none'] at h
      cases h
    | some d =>
      rw [hd, Option.map_some'] at h
      injection h with h
      rw [← h]

/-- A volatility-filtered resolved entry is keyed by its option's
metadata key. -/
theorem filteredResolveEntry_key (m : ObjMode) (vals : ValMap)
    (od : OptionDef) (p : String × Value)
    (h : Option.filter (nonVolatileEntry m) (resolveEntry vals od) = some p) :
    p.1 = od.metadata := by
  cases he : resolveEntry vals od with
  | none =>
    rw [he] at h
    cases h
  | some q =>
    rw [he] at h
    cases hq : nonVolatileEntry m q with
    | false =>
      simp [Option.filter, hq] at h
    | true =>
      simp only [Option.filter, hq, if_true] at h
      injection h with h
      rw [← h]
      exact resolveEntry_key vals od q he

/-- Keys absent from an option list are not found in its keyed
filterMap. -/
theorem lookupVal_filterMap_not_mem
    (f : OptionDef → Option (String × Value))
    (hkey : ∀ od p, f od = some p → p.1 = od.metadata) :
    ∀ (l : List OptionDef) (k : String), k ∉ l.map OptionDef.metadata →
      lookupVal k (l.filterMap f) = none := by
  intro l
  induction l with
  | nil =>
    intro k _
    rfl
  | cons h rest ih =>
    intro k hk
    rw [List.map_cons, List.mem_cons] at hk
    push_neg at hk
    rw [List.filterMap_cons]
    cases hf : f h with
    | none => exact ih k hk.2
    | some p =>
      obtain ⟨pk, pv⟩ := p
      have hpk : pk = h.metadata := hkey h (pk, pv) hf
      have hne : (pk == k) = false := by
        refine beq_eq_false_iff_ne.mpr fun he => ?_
        exact hk.1 (he ▸ hpk)
      rw [lookupVal_cons, ite_beq_false hne]
      exact ih k hk.2

/-- Looking up an option's own key in a keyed filterMap over a
duplicate-free option list yields that option's emitted value. -/
theorem lookupVal_filterMap_self
    (f : OptionDef → Option (String × Value))
    (hkey : ∀ od p, f od = some p → p.1 = od.metadata) :
    ∀ (l : List OptionDef) (od : OptionDef),
      (l.map OptionDef.metadata).Nodup → od ∈ l →
      lookupVal od.metadata (l.filterMap f) = (f od).map Prod.snd := by
  intro l
  induction l with
  | nil =>
    intro od _ hod
    cases hod
  | cons h rest ih =>
    intro od hnodup hod
    rw [List.map_cons] at hnodup
    have hn := List.nodup_cons.mp hnodup
    rw [List.filterMap_cons]
    rcases List.mem_cons.mp hod with he | hm
    · subst he
      cases hf : f od with
      | none =>
        rw [Option.map_none']
        exact lookupVal_filterMap_not_mem f hkey rest od.metadata hn.1
      | some p =>
        obtain ⟨pk, pv⟩ := p
        have hpk : pk = od.metadata := hkey od (pk, pv) hf
        subst hpk
        rw [Option.map_some', lookupVal_cons, ite_beq_true (beq_self_eq_true _)]
    · have hne : (h.metadata == od.metadata) = false := by
        refine beq_eq_false_iff_ne.mpr fun heq => ?_
        exact hn.1 (heq ▸ List.mem_map_of_mem _ hm)
      cases hf : f h with
      | none => exact ih od hn.2 hm
      | some p =>
        obtain ⟨pk, pv⟩ := p
        have hpk : pk = h.metadata := hkey h (pk, pv) hf
        subst hpk
        rw [lookupVal_cons, ite_beq_false hne]
        exact ih od hn.2 hm

/-- In a duplicate-free option list, `find?` by an option's own key finds
that option. -/
theorem find?_option_self : ∀ (l : List OptionDef) (od : OptionDef),
    (l.map OptionDef.metadata).Nodup → od ∈ l →
    l.find? (fun o => o.metadata == od.metadata) = some od := by
  intro l
  induction l with
  | nil =>
    intro od _ hod
    cases hod
  | cons h rest ih =>
    intro od hnodup hod
    rw [List.map_cons] at hnodup
    have hn := List.nodup_cons.mp hnodup
    rcases List.mem_cons.mp hod with he | hm
    · subst he
      simp [List.find?]
    · have hne : (h.metadata == od.metadata) = false := by
        refine beq_eq_false_iff_ne.mpr fun heq => ?_
        exact hn.1 (heq ▸ List.mem_map_of_mem _ hm)
      simp only [List.find?, hne]
      exact ih od hn.2 hm

/-- With duplicate-free option keys, the volatility of an option's key is
that option's flag. -/
theorem isVolatileKey_eq (m : ObjMode) (od : OptionDef)
    (hnodup : (m.options.map OptionDef.metadata).Nodup)
    (hod : od ∈ m.options) :
    isVolatileKey m od.metadata = od.volatile := by
  unfold isVolatileKey
  rw [find?_option_self m.options od hnodup hod]

/-- Every key of a resolved value mapping is declared. -/
theorem mem_resolveOptions_key (m : ObjMode) (vals : ValMap)
    (p : String × Value) (hp : p ∈ resolveOptions m vals) :
    p.1 ∈ declaredKeys m := by
  unfold resolveOptions at hp
  rw [List.mem_filterMap] at hp
  obtain ⟨od, hod, heq⟩ := hp
  rw [resolveEntry_key vals od p heq]
  exact List.mem_map_of_mem _ hod

/-- Re-resolving the non-volatile projection of a resolved value mapping
reproduces that projection — the algebraic heart of the template
round-trip. -/
theorem filterNonvol_resolve_idem (m : ObjMode) (vals : ValMap)
    (hnodup : (m.options.map OptionDef.metadata).Nodup) :
    (resolveOptions m ((resolveOptions m vals).filter (nonVolatileEntry m))).filter
        (nonVolatileEntry m) =
      (resolveOptions m vals).filter (nonVolatileEntry m) := by
  have hFrep : (resolveOptions m vals).filter (nonVolatileEntry m) =
      m.options.filterMap
        (fun x => Option.filter (nonVolatileEntry m) (resolveEntry vals x)) := by
    unfold resolveOptions
    exact List.filter_filterMap _ _ _
  rw [show resolveOptions m ((resolveOptions m vals).filter (nonVolatileEntry m)) =
    m.options.filterMap
      (resolveEntry ((resolveOptions m vals).filter (nonVolatileEntry m))) from rfl]
  rw [List.filter_filterMap]
  conv_rhs => rw [hFrep]
  refine List.filterMap_congr fun od hod => ?_
  have hv := isVolatileKey_eq m od hnodup hod
  cases hov : od.volatile with
  | true =>
    rw [hov] at hv
    have hnone : ∀ X : ValMap,
        Option.filter (nonVolatileEntry m) (resolveEntry X od) = none := by
      intro X
      cases he : resolveEntry X od with
      | none => rfl
      | some q =>
        have hq1 : q.1 = od.metadata := resolveEntry_key X od q he
        have hq : nonVolatileEntry m q = false := by
          unfold nonVolatileEntry
          rw [hq1, hv]
          rfl
        simp [Option.filter, hq]
    rw [hnone, hnone]
  | false =>
    rw [hov] at hv
    have hkeep : ∀ X : ValMap,
        Option.filter (nonVolatileEntry m) (resolveEntry X od) =
          resolveEntry X od := by
      intro X
      cases he : resolveEntry X od with
      | none => rfl
      | some q =>
        have hq1 : q.1 = od.metadata := resolveEntry_key X od q he
        have hq : nonVolatileEntry m q = true := by
          unfold nonVolatileEntry
          rw [hq1, hv]
          rfl
        simp [Option.filter, hq]
    rw [hkeep, hkeep]
    have hlk : lookupVal od.metadata
        ((resolveOptions m vals).filter (nonVolatileEntry m)) =
          (resolveEntry vals od).map Prod.snd := by
      rw [hFrep,
        lookupVal_filterMap_self _ (filteredResolveEntry_key m vals)
          m.options od hnodup hod, hkeep]
    unfold resolveEntry
    cases hmv : lookupVal od.metadata vals with
    | some v =>
      simp [resolveEntry, hmv] at hlk
      rw [hlk]
    | none =>
      cases hd : od.dflt with
      | some d =>
        simp [resolveEntry, hmv, hd] at hlk
        rw [hlk]
        rfl
      | none =>
        simp [resolveEntry, hmv, hd] at hlk
        rw [hlk]

/-- Replacing a volatile key's entries does not change the template
projection. -/
theorem filter_nonvol_replace (m : ObjMode) (k : String) (v : Value)
    (hvol : isVolatileKey m k = true) :
    ∀ X : ValMap,
      (X.map (fun p => if p.1 == k then (k, v) else p)).filter (nonVolatileEntry m) =
        X.filter (nonVolatileEntry m) := by
  intro X
  induction X with
  | nil => rfl
  | cons p rest ih =>
    obtain ⟨pk, pv⟩ := p
    rw [List.map_cons]
    cases hke : (pk == k) with
    | true =>
      rw [ite_beq_true rfl, List.filter_cons, List.filter_cons]
      have h1 : nonVolatileEntry m (k, v) = false := by
        simp [nonVolatileEntry, hvol]
      have h2 : nonVolatileEntry m (pk, pv) = false := by
        simp [nonVolatileEntry, beq_iff_eq.mp hke, hvol]
      rw [ite_beq_false h1, ite_beq_false h2]
      exact ih
    | false =>
      rw [ite_beq_false rfl, List.filter_cons, List.filter_cons]
      cases hnv : nonVolatileEntry m (pk, pv) with
      | true => rw [ite_beq_true rfl, ite_beq_true rfl, ih]
      | false =>
        rw [ite_beq_false rfl, ite_beq_false rfl]
        exact ih

/-- Setting a volatile key does not change the template projection. -/
theorem filter_nonvol_setVal_volatile (m : ObjMode) (k : String) (v : Value)
    (X : ValMap) (hvol : isVolatileKey m k = true) :
    (setVal k v X).filter (nonVolatileEntry m) = X.filter (nonVolatileEntry m) := by
  unfold setVal
  cases hl : lookupVal k X with
  | some w =>
    simp only [hl, Option.isSome_some, if_true]
    exact filter_nonvol_replace m k v hvol X
  | none =>
    simp only [hl, Option.isSome_none, Bool.false_eq_true, if_false]
    rw [List.filter_append, List.filter_cons]
    have h1 : nonVolatileEntry m (k, v) = false := by
      simp [nonVolatileEntry, hvol]
    rw [ite_beq_false h1]
    rw [List.filter_nil, List.append_nil]

/-- Claim C7: for a mode with duplicate-free option keys whose required
options are non-volatile (and `mode` not a declared key, the computed
hash and size volatile): the template of a created object is exactly its
non-volatile option values plus the mode entry; re-creating from the
template (minus the mode entry) succeeds and yields an object with the
identical template — hence identical non-volatile option values — and
the template never changes under `load`, so it is producible without
reading file content. -/
theorem template_roundtrip (m : ObjMode) (cs : Nat) (vals : ValMap) (o : Obj)
    (hnodup : (m.options.map OptionDef.metadata).Nodup)
    (hreq : ∀ od ∈ m.options, od.required = true → od.volatile = false)
    (hmode : "mode" ∉ declaredKeys m)
    (hvol1 : isVolatileKey m "sha256sum" = true)
    (hvol2 : isVolatileKey m "size" = true)
    (hcreate : createObj m cs vals = .ok o) :
    o.template = o.values.filter (nonVolatileEntry m) ++ [("mode", .str m.mode)] ∧
    (∃ o', createObj m cs (removeVal "mode" o.template) = .ok o' ∧
      o'.template = o.template) ∧
    (∀ fs o₂, Obj.load fs o = .ok o₂ → o₂.template = o.template) := by
  obtain ⟨hfu, hfm, rfl⟩ := createObj_ok_inversion m cs vals o hcreate
  have hFdecl : ∀ p ∈ (resolveOptions m vals).filter (nonVolatileEntry m),
      p.1 ∈ declaredKeys m :=
    fun p hp => mem_resolveOptions_key m vals p (List.mem_of_mem_filter hp)
  have hFmode : "mode" ∉
      ((resolveOptions m vals).filter (nonVolatileEntry m)).map Prod.fst := by
    intro hmem
    rw [List.mem_map] at hmem
    obtain ⟨p, hp, hp1⟩ := hmem
    exact hmode (hp1 ▸ hFdecl p hp)
  have hFnone : lookupVal "mode"
      ((resolveOptions m vals).filter (nonVolatileEntry m)) = none :=
    lookupVal_eq_none_of_not_mem _ _ hFmode
  have htmpl : Obj.template ⟨m, resolveOptions m vals, cs⟩ =
      (resolveOptions m vals).filter (nonVolatileEntry m) ++
        [("mode", .str m.mode)] := by
    show setVal "mode" (.str m.mode)
        ((resolveOptions m vals).filter (nonVolatileEntry m)) = _
    unfold setVal
    simp only [hFnone, Option.isSome_none, Bool.false_eq_true, if_false]
  have hrem : removeVal "mode"
      ((resolveOptions m vals).filter (nonVolatileEntry m) ++
        [("mode", .str m.mode)]) =
      (resolveOptions m vals).filter (nonVolatileEntry m) := by
    unfold removeVal
    rw [List.filter_append]
    have h1 : ((resolveOptions m vals).filter (nonVolatileEntry m)).filter
        (fun p => !(p.1 == "mode")) =
          (resolveOptions m vals).filter (nonVolatileEntry m) :=
      List.filter_eq_self.mpr (fun p hp => by
        have hne : p.1 ≠ "mode" := fun he => hmode (he ▸ hFdecl p hp)
        simp [hne])
    have h2 : ([(("mode" : String), Value.str m.mode)] : ValMap).filter
        (fun p => !(p.1 == "mode")) = [] := rfl
    rw [h1, h2, List.append_nil]
  have hFrep : (resolveOptions m vals).filter (nonVolatileEntry m) =
      m.options.filterMap
        (fun x => Option.filter (nonVolatileEntry m) (resolveEntry vals x)) := by
    unfold resolveOptions
    exact List.filter_filterMap _ _ _
  have hFunknown : findUnknown m
      ((resolveOptions m vals).filter (nonVolatileEntry m)) = none := by
    unfold findUnknown
    rw [List.find?_eq_none]
    intro p hp
    have hdecl := hFdecl p hp
    simp [List.elem_iff, hdecl]
  have hFmissing : findMissingRequired m
      ((resolveOptions m vals).filter (nonVolatileEntry m)) = none := by
    unfold findMissingRequired
    rw [List.find?_eq_none]
    intro od hod
    have hvals : ¬ (od.required && (lookupVal od.metadata vals).isNone &&
        od.dflt.isNone) = true := by
      have := hfm
      unfold findMissingRequired at this
      exact List.find?_eq_none.mp this od hod
    cases hr : od.required with
    | false => simp [hr]
    | true =>
      have hnv : od.volatile = false := hreq od hod hr
      cases hmv : lookupVal od.metadata vals with
      | none =>
        have hd : od.dflt.isNone = false := by
          cases hdn : od.dflt.isNone with
          | false => rfl
          | true => exact absurd (by simp [hr, hmv, hdn]) hvals
        simp [hd]
      | some v =>
        have hvolk : isVolatileKey m od.metadata = false := by
          rw [isVolatileKey_eq m od hnodup hod, hnv]
        have hfilt : Option.filter (nonVolatileEntry m) (resolveEntry vals od) =
            some (od.metadata, v) := by
          simp [resolveEntry, hmv, Option.filter, nonVolatileEntry, hvolk]
        have hlk : lookupVal od.metadata
            ((resolveOptions m vals).filter (nonVolatileEntry m)) =
              some v := by
          rw [hFrep,
            lookupVal_filterMap_self _ (filteredResolveEntry_key m vals)
              m.options od hnodup hod, hfilt, Option.map_some']
        simp [hlk]
  have hvalidate : validateOptions m
      ((resolveOptions m vals).filter (nonVolatileEntry m)) =
        .ok (resolveOptions m
          ((resolveOptions m vals).filter (nonVolatileEntry m))) := by
    unfold validateOptions
    simp only [hFunknown, hFmissing]
  refine ⟨htmpl, ⟨⟨m, resolveOptions m
      ((resolveOptions m vals).filter (nonVolatileEntry m)), cs⟩, ?_, ?_⟩, ?_⟩
  · rw [htmpl, hrem]
    unfold createObj
    rw [hvalidate]
    rfl
  · show setVal "mode" (.str m.mode)
        ((resolveOptions m ((resolveOptions m vals).filter
          (nonVolatileEntry m))).filter (nonVolatileEntry m)) = _
    rw [filterNonvol_resolve_idem m vals hnodup]
    rfl
  · intro fs o₂ hload
    unfold Obj.load at hload
    cases hfs : fs (Obj.fname ⟨m, resolveOptions m vals, cs⟩) with
    | none =>
      simp only [hfs] at hload
      cases hload
    | some content =>
      simp only [hfs] at hload
      injection hload with hload
      rw [← hload]
      show setVal "mode" (.str m.mode)
          ((setVal "size" (.nat content.length)
            (setVal "sha256sum"
              (.str (sha256hex ((objChunks cs content).flatten)))
              (resolveOptions m vals))).filter (nonVolatileEntry m)) = _
      rw [filter_nonvol_setVal_volatile m "size" _ _ hvol2,
        filter_nonvol_setVal_volatile m "sha256sum" _ _ hvol1]
      rfl

/-- Witness for C7: a created ubifs object's template round-trips — the
re-created object has the identical template — and loading over a
filesystem where its file holds `b"spam"` leaves the template unchanged. -/
theorem template_roundtrip_witness :
    (Obj.template ⟨ubifsMode, [("filename", .str "f.bin"), ("volume", .str "system")], 1⟩ =
      ([("filename", .str "f.bin"), ("volume", .str "system")] : ValMap).filter
          (nonVolatileEntry ubifsMode) ++ [("mode", .str ubifsMode.mode)]) ∧
    (∃ o', createObj ubifsMode 1 (removeVal "mode"
        (Obj.template ⟨ubifsMode, [("filename", .str "f.bin"), ("volume", .str "system")], 1⟩)) =
          .ok o' ∧
      o'.template = Obj.template
        ⟨ubifsMode, [("filename", .str "f.bin"), ("volume", .str "system")], 1⟩) ∧
    (∀ fs o₂, Obj.load fs
        ⟨ubifsMode, [("filename", .str "f.bin"), ("volume", .str "system")], 1⟩ = .ok o₂ →
      o₂.template = Obj.template
        ⟨ubifsMode, [("filename", .str "f.bin"), ("volume", .str "system")], 1⟩) :=
  template_roundtrip ubifsMode 1
    [("filename", .str "f.bin"), ("volume", .str "system")]
    ⟨ubifsMode, [("filename", .str "f.bin"), ("volume", .str "system")], 1⟩
    (by decide) (by decide) (by decide) (by decide) (by decide) rfl

/-! ## Loading lemmas shared by the object-serialization claims -/

/-- `loadedWith` keeps the mode. -/
theorem loadedWith_modeDef (o : Obj) (content : List Nat) :
    (loadedWith o content).modeDef = o.modeDef := rfl

/-- `loadedWith` keeps the filename. -/
theorem loadedWith_fname (o : Obj) (content : List Nat) :
    (loadedWith o content).fname = o.fname := by
  unfold Obj.fname loadedWith
  rw [lookupVal_setVal_ne _ _ _ _ (by decide),
    lookupVal_setVal_ne _ _ _ _ (by decide)]

/-- A readable file loads successfully, storing the fresh hash and
size. -/
theorem load_ok (fs : FS) (o : Obj) (content : List Nat)
    (hcs : 0 < o.chunkSize) (hfile : fs o.fname = some content) :
    Obj.load fs o = .ok (loadedWith o content) := by
  unfold Obj.load loadedWith
  simp only [hfile]
  rw [objChunks_flatten _ _ hcs]

/-- The serialized metadata of an object with a readable file, as the
composition of the load result, the mode entry and the two metadata
transforms. -/
theorem metadata_unfold (fs : FS) (o : Obj) (content : List Nat)
    (hcs : 0 < o.chunkSize) (hfile : fs o.fname = some content) :
    Obj.metadata fs o = .ok (metadataCompression fs (loadedWith o content)
      (metadataInstallCondition o.modeDef.allowInstallCondition
        (setVal "mode" (.str o.modeDef.mode) (loadedWith o content).values))) := by
  unfold Obj.metadata
  rw [load_ok fs o content hcs hfile]
  rfl

/-- Claim C6: for every object whose file is readable, the serialized
metadata contains `sha256sum` and `size`, equal to the SHA-256 hex digest
and the length of the file's bytes as recomputed at serialization time —
whatever stale `sha256sum`/`size` values the object carried beforehand
(`metadata` invokes `load`, so the values are fresh). -/
theorem metadata_fresh_hash_size (fs : FS) (o : Obj) (content : List Nat)
    (hcs : 0 < o.chunkSize) (hfile : fs o.fname = some content) :
    ∃ m, Obj.metadata fs o = .ok m ∧
      lookupVal "sha256sum" m = some (.str (sha256hex content)) ∧
      lookupVal "size" m = some (.nat content.length) := by
  refine ⟨_, metadata_unfold fs o content hcs hfile, ?_, ?_⟩
  · rw [lookupVal_metadataCompression _ _ _ _ (by decide) (by decide),
      lookupVal_metadataInstallCondition _ _ _ (by decide) (by decide),
      lookupVal_setVal_ne _ _ _ _ (by decide)]
    show lookupVal "sha256sum" (loadedWith o content).values = _
    unfold loadedWith
    rw [lookupVal_setVal_ne _ _ _ _ (by decide), lookupVal_setVal_self]
  · rw [lookupVal_metadataCompression _ _ _ _ (by decide) (by decide),
      lookupVal_metadataInstallCondition _ _ _ (by decide) (by decide),
      lookupVal_setVal_ne _ _ _ _ (by decide)]
    show lookupVal "size" (loadedWith o content).values = _
    unfold loadedWith
    rw [lookupVal_setVal_self]

/-- Witness for C6: the sample object's metadata carries the hash and
size of `b"spam"` even though its stored hash was already set. -/
theorem metadata_fresh_hash_size_witness :
    ∃ m, Obj.metadata sampleFS sampleObj = .ok m ∧
      lookupVal "sha256sum" m = some (.str (sha256hex spamBytes)) ∧
      lookupVal "size" m = some (.nat spamBytes.length) :=
  metadata_fresh_hash_size sampleFS sampleObj spamBytes (by decide) rfl

/-! ## Download-list lemmas -/

/-- When some object's local file exists with divergent content, the
download list computation aborts with the "will be overwritten" error
naming such a file. -/
theorem getDownloadList_error_of_divergent (fs : FS) :
    ∀ objs : List Obj,
      (∃ o ∈ objs, ∃ c, fs o.fname = some c ∧
        lookupVal "sha256sum" o.values ≠
          some (.str (sha256hex ((objChunks o.chunkSize c).flatten)))) →
      ∃ o' ∈ objs, (∃ c', fs o'.fname = some c' ∧
          lookupVal "sha256sum" o'.values ≠
            some (.str (sha256hex ((objChunks o'.chunkSize c').flatten)))) ∧
        getDownloadList fs objs = .error ⟨o'.fname ++ " will be overwritten"⟩ := by
  intro objs
  induction objs with
  | nil =>
    rintro ⟨o, ho, _⟩
    cases ho
  | cons o rest ih =>
    rintro ⟨o₀, ho₀, c₀, hc₀, hne₀⟩
    cases hfs : fs o.fname with
    | none =>
      have hrest : ∃ x ∈ rest, ∃ c, fs x.fname = some c ∧
          lookupVal "sha256sum" x.values ≠
            some (.str (sha256hex ((objChunks x.chunkSize c).flatten))) := by
        rcases List.mem_cons.mp ho₀ with h | h
        · subst h
          rw [hfs] at hc₀
          cases hc₀
        · exact ⟨o₀, h, c₀, hc₀, hne₀⟩
      obtain ⟨o', ho', hprop, herr⟩ := ih hrest
      refine ⟨o', List.mem_cons_of_mem _ ho', hprop, ?_⟩
      simp only [getDownloadList, hfs]
      rw [herr]
      rfl
    | some content =>
      by_cases heq : lookupVal "sha256sum" o.values =
          some (.str (sha256hex ((objChunks o.chunkSize content).flatten)))
      · have hrest : ∃ x ∈ rest, ∃ c, fs x.fname = some c ∧
            lookupVal "sha256sum" x.values ≠
              some (.str (sha256hex ((objChunks x.chunkSize c).flatten))) := by
          rcases List.mem_cons.mp ho₀ with h | h
          · subst h
            rw [hfs] at hc₀
            injection hc₀ with hc
            subst hc
            exact absurd heq hne₀
          · exact ⟨o₀, h, c₀, hc₀, hne₀⟩
        obtain ⟨o', ho', hprop, herr⟩ := ih hrest
        refine ⟨o', List.mem_cons_of_mem _ ho', hprop, ?_⟩
        simp only [getDownloadList, hfs]
        rw [if_neg (fun hx => hx heq.symm), herr]
      · refine ⟨o, List.mem_cons_self o rest, ⟨content, hfs, heq⟩, ?_⟩
        simp only [getDownloadList, hfs]
        rw [if_pos (Ne.symm heq)]

/-- A successful download-list computation returns exactly the objects
whose local file does not exist. -/
theorem getDownloadList_ok_filter (fs : FS) :
    ∀ (objs : List Obj) (l : List Obj), getDownloadList fs objs = .ok l →
      l = objs.filter (fun o => (fs o.fname).isNone) := by
  intro objs
  induction objs with
  | nil =>
    intro l h
    simp only [getDownloadList] at h
    injection h with h
    rw [← h]
    rfl
  | cons o rest ih =>
    intro l h
    simp only [getDownloadList] at h
    cases hfs : fs o.fname with
    | none =>
      simp only [hfs] at h
      cases hrec : getDownloadList fs rest with
      | error e =>
        rw [hrec] at h
        simp [Except.map] at h
      | ok l' =>
        rw [hrec] at h
        simp only [Except.map] at h
        injection h with h
        rw [← h, ih l' hrec, List.filter_cons]
        simp [hfs]
    | some content =>
      simp only [hfs] at h
      by_cases heq : some (Value.str (sha256hex ((objChunks o.chunkSize content).flatten))) ≠
          lookupVal "sha256sum" o.values
      · rw [if_pos heq] at h
        cases h
      · rw [if_neg heq] at h
        rw [ih l h, List.filter_cons]
        simp [hfs]

/-- Claim C3: pulling never silently overwrites local content — when some
object's filename exists locally with content whose recomputed SHA-256
differs from the stored `sha256sum`, `download_objects` raises the
"will be overwritten" error naming such a file before any download
request is issued and leaves the filesystem untouched; and a successful
download-list computation consists of exactly the objects whose local
file does not exist (existing files with matching hash are skipped). -/
theorem pull_overwrite_protection (fs : FS) (objs : List Obj)
    (hcs : ∀ o ∈ objs, 0 < o.chunkSize) :
    ((∃ o ∈ objs, ∃ c, fs o.fname = some c ∧
        lookupVal "sha256sum" o.values ≠ some (.str (sha256hex c))) →
      ∀ net server uid,
        ∃ o' ∈ objs, (∃ c', fs o'.fname = some c' ∧
            lookupVal "sha256sum" o'.values ≠ some (.str (sha256hex c'))) ∧
          downloadObjects fs net server uid objs =
            (fs, .error ⟨o'.fname ++ " will be overwritten"⟩, [])) ∧
    (∀ l, getDownloadList fs objs = .ok l →
      l = objs.filter (fun o => (fs o.fname).isNone)) := by
  constructor
  · rintro ⟨o, ho, c, hc, hne⟩ net server uid
    have hdiv : ∃ x ∈ objs, ∃ cx, fs x.fname = some cx ∧
        lookupVal "sha256sum" x.values ≠
          some (.str (sha256hex ((objChunks x.chunkSize cx).flatten))) := by
      refine ⟨o, ho, c, hc, ?_⟩
      rw [objChunks_flatten _ _ (hcs o ho)]
      exact hne
    obtain ⟨o', ho', ⟨c', hc', hne'⟩, herr⟩ :=
      getDownloadList_error_of_divergent fs objs hdiv
    rw [objChunks_flatten _ _ (hcs o' ho')] at hne'
    refine ⟨o', ho', ⟨c', hc', hne'⟩, ?_⟩
    unfold downloadObjects
    rw [herr]
  · exact getDownloadList_ok_filter fs objs

/-- Witness for C3: pulling a package whose object's stored hash
diverges from the existing local `base.txt` aborts with the
"will be overwritten" error, issues no request and writes nothing. -/
theorem pull_overwrite_protection_witness :
    ∃ o' ∈ [divergentObj], (∃ c', sampleFS o'.fname = some c' ∧
        lookupVal "sha256sum" o'.values ≠ some (.str (sha256hex c'))) ∧
      downloadObjects sampleFS (fun _ => none) "http://server" "uid-1" [divergentObj] =
        (sampleFS, .error ⟨o'.fname ++ " will be overwritten"⟩, []) :=
  (pull_overwrite_protection sampleFS [divergentObj]
      (by
        intro o ho
        rw [List.mem_singleton] at ho
        subst ho
        decide)).1
    ⟨divergentObj, List.mem_singleton.mpr rfl, spamBytes, rfl, by decide⟩
    (fun _ => none) "http://server" "uid-1"

/-! ## Compression claims -/

/-- In a compression-allowing mode, the metadata of a gzip-container file
carries `compressed = True` and the trailer's recorded plaintext size. -/
theorem metadata_gzip_keys (fs : FS) (o : Obj) (c : List Nat)
    (hcs : 0 < o.chunkSize)
    (hab : o.modeDef.allowCompression = true)
    (hfile : fs o.fname = some c)
    (hmagic : startsWithBytes gzipMagic c = true) (hlen : 18 ≤ c.length) :
    ∃ m, Obj.metadata fs o = .ok m ∧
      lookupVal "compressed" m = some (.bool true) ∧
      lookupVal "required-uncompressed-size" m =
        some (.nat (le32 (lastBytes 4 c))) := by
  have hfmt : getCompressorFormat fs (loadedWith o c).fname = some .gzip := by
    rw [loadedWith_fname]
    unfold getCompressorFormat
    simp only [hfile]
    rw [ite_beq_true hmagic]
  have hsz : getUncompressedSize fs (loadedWith o c).fname
      (getCompressorFormat fs (loadedWith o c).fname) =
        some (le32 (lastBytes 4 c)) := by
    rw [hfmt, loadedWith_fname]
    unfold getUncompressedSize
    simp only [hfile]
    rw [if_pos hlen]
  have hcomp : ∀ M, metadataCompression fs (loadedWith o c) M =
      setVal "required-uncompressed-size" (.nat (le32 (lastBytes 4 c)))
        (setVal "compressed" (.bool true) M) := by
    intro M
    unfold metadataCompression
    rw [loadedWith_modeDef, hab, ite_beq_true rfl, hsz]
  refine ⟨_, metadata_unfold fs o c hcs hfile, ?_, ?_⟩
  · rw [hcomp, lookupVal_setVal_ne _ _ _ _ (by decide), lookupVal_setVal_self]
  · rw [hcomp, lookupVal_setVal_self]

/-- In a compression-allowing mode, the metadata of a file matching no
container signature carries no compression key, provided the stored
option values carry none either. -/
theorem metadata_no_compression_keys (fs : FS) (o : Obj) (c : List Nat)
    (hcs : 0 < o.chunkSize)
    (hab : o.modeDef.allowCompression = true)
    (hfile : fs o.fname = some c)
    (hfmt : getCompressorFormat fs o.fname = none)
    (h1 : lookupVal "compressed" o.values = none)
    (h2 : lookupVal "required-uncompressed-size" o.values = none) :
    ∃ m, Obj.metadata fs o = .ok m ∧
      lookupVal "compressed" m = none ∧
      lookupVal "required-uncompressed-size" m = none := by
  have hsz : getUncompressedSize fs (loadedWith o c).fname
      (getCompressorFormat fs (loadedWith o c).fname) = none := by
    rw [loadedWith_fname, hfmt]
    rfl
  have hcomp : ∀ M, metadataCompression fs (loadedWith o c) M = M := by
    intro M
    unfold metadataCompression
    rw [loadedWith_modeDef, hab, ite_beq_true rfl, hsz]
  refine ⟨_, metadata_unfold fs o c hcs hfile, ?_, ?_⟩
  · rw [hcomp, lookupVal_metadataInstallCondition _ _ _ (by decide) (by decide),
      lookupVal_setVal_ne _ _ _ _ (by decide)]
    show lookupVal "compressed" (loadedWith o c).values = none
    unfold loadedWith
    rw [lookupVal_setVal_ne _ _ _ _ (by decide),
      lookupVal_setVal_ne _ _ _ _ (by decide)]
    exact h1
  · rw [hcomp, lookupVal_metadataInstallCondition _ _ _ (by decide) (by decide),
      lookupVal_setVal_ne _ _ _ _ (by decide)]
    show lookupVal "required-uncompressed-size" (loadedWith o c).values = none
    unfold loadedWith
    rw [lookupVal_setVal_ne _ _ _ _ (by decide),
      lookupVal_setVal_ne _ _ _ _ (by decide)]
    exact h2

/-- Claim C8: for an object in a compression-allowing mode over a
readable file — if the file is a gzip container (magic bytes, at least
the minimal 18-byte member), the metadata reports `compressed = True` and
`required-uncompressed-size` equal to the container's recorded plaintext
size (the little-endian `ISIZE` trailer); if the file matches no known
container signature, the metadata contains neither key at all. -/
theorem compression_metadata_keys (fs : FS) (o : Obj) (c : List Nat)
    (hcs : 0 < o.chunkSize)
    (hab : o.modeDef.allowCompression = true)
    (hfile : fs o.fname = some c) :
    (startsWithBytes gzipMagic c = true → 18 ≤ c.length →
      ∃ m, Obj.metadata fs o = .ok m ∧
        lookupVal "compressed" m = some (.bool true) ∧
        lookupVal "required-uncompressed-size" m =
          some (.nat (le32 (lastBytes 4 c)))) ∧
    (getCompressorFormat fs o.fname = none →
      lookupVal "compressed" o.values = none →
      lookupVal "required-uncompressed-size" o.values = none →
      ∃ m, Obj.metadata fs o = .ok m ∧
        lookupVal "compressed" m = none ∧
        lookupVal "required-uncompressed-size" m = none) :=
  ⟨fun hmagic hlen => metadata_gzip_keys fs o c hcs hab hfile hmagic hlen,
   fun hfmt h1 h2 => metadata_no_compression_keys fs o c hcs hab hfile hfmt h1 h2⟩

/-! ## Option-resolution lookup lemmas -/

/-- Resolution emits no entry for a key with no given value whose options
have no default. -/
theorem lookupVal_filterMapResolve_none (vals : ValMap) (k : String) :
    ∀ l : List OptionDef,
      (∀ od ∈ l, od.metadata = k → od.dflt = none) →
      lookupVal k vals = none →
      lookupVal k (l.filterMap (resolveEntry vals)) = none := by
  intro l
  induction l with
  | nil =>
    intro _ _
    rfl
  | cons od rest ih =>
    intro hopt hval
    rw [List.filterMap_cons]
    cases hmv : lookupVal od.metadata vals with
    | some v =>
      have hne : (od.metadata == k) = false := by
        refine beq_eq_false_iff_ne.mpr fun he => ?_
        rw [he, hval] at hmv
        cases hmv
      simp only [resolveEntry, hmv]
      rw [lookupVal_cons, ite_beq_false hne]
      exact ih (fun x hx hk => hopt x (List.mem_cons_of_mem _ hx) hk) hval
    | none =>
      cases hd : od.dflt with
      | none =>
        simp only [resolveEntry, hmv, hd, Option.map_none']
        exact ih (fun x hx hk => hopt x (List.mem_cons_of_mem _ hx) hk) hval
      | some d =>
        have hne : (od.metadata == k) = false := by
          refine beq_eq_false_iff_ne.mpr fun he => ?_
          have hcon := hopt od (List.mem_cons_self _ _) he
          rw [hd] at hcon
          cases hcon
        simp only [resolveEntry, hmv, hd, Option.map_some']
        rw [lookupVal_cons, ite_beq_false hne]
        exact ih (fun x hx hk => hopt x (List.mem_cons_of_mem _ hx) hk) hval

/-- Resolution keeps the given value of a declared key. -/
theorem lookupVal_filterMapResolve_some (vals : ValMap) (k : String)
    (v : Value) (hval : lookupVal k vals = some v) :
    ∀ l : List OptionDef, k ∈ l.map OptionDef.metadata →
      lookupVal k (l.filterMap (resolveEntry vals)) = some v := by
  intro l
  induction l with
  | nil =>
    intro h
    cases h
  | cons od rest ih =>
    intro hdecl
    rw [List.filterMap_cons]
    cases hke : (od.metadata == k) with
    | true =>
      have hval' : lookupVal od.metadata vals = some v := by
        rw [beq_iff_eq.mp hke]
        exact hval
      simp only [resolveEntry, hval']
      rw [lookupVal_cons, ite_beq_true hke]
    | false =>
      have hmem : k ∈ rest.map OptionDef.metadata := by
        rw [List.map_cons] at hdecl
        rcases List.mem_cons.mp hdecl with h | h
        · exact absurd h.symm (beq_eq_false_iff_ne.mp hke)
        · exact h
      cases hmv : lookupVal od.metadata vals with
      | some w =>
        simp only [resolveEntry, hmv]
        rw [lookupVal_cons, ite_beq_false hke]
        exact ih hmem
      | none =>
        cases hd : od.dflt with
        | none =>
          simp only [resolveEntry, hmv, hd, Option.map_none']
          exact ih hmem
        | some d =>
          simp only [resolveEntry, hmv, hd, Option.map_some']
          rw [lookupVal_cons, ite_beq_false hke]
          exact ih hmem

/-- `resolveOptions` wrapper of `lookupVal_filterMapResolve_none`. -/
theorem lookupVal_resolveOptions_none (m : ObjMode) (vals : ValMap) (k : String)
    (hopt : ∀ od ∈ m.options, od.metadata = k → od.dflt = none)
    (hval : lookupVal k vals = none) :
    lookupVal k (resolveOptions m vals) = none :=
  lookupVal_filterMapResolve_none vals k m.options hopt hval

/-- `resolveOptions` wrapper of `lookupVal_filterMapResolve_some`. -/
theorem lookupVal_resolveOptions_some (m : ObjMode) (vals : ValMap) (k : String)
    (v : Value) (hval : lookupVal k vals = some v)
    (hdecl : k ∈ declaredKeys m) :
    lookupVal k (resolveOptions m vals) = some v :=
  lookupVal_filterMapResolve_some vals k v hval m.options hdecl

/-- A successful `update` resolves the single-key change over the whole
option set. -/
theorem update_ok_inversion (o : Obj) (k : String) (v : Value) (o' : Obj)
    (h : o.update k v = .ok o') :
    o' = { o with values := resolveOptions o.modeDef (setVal k v o.values) } := by
  unfold Obj.update validateOptions at h
  cases hfu : findUnknown o.modeDef (setVal k v o.values) with
  | some p =>
    simp only [hfu, Except.map] at h
    cases h
  | none =>
    simp only [hfu] at h
    cases hfm : findMissingRequired o.modeDef (setVal k v o.values) with
    | some q =>
      simp only [hfm, Except.map] at h
      cases h
    | none =>
      simp only [hfm, Except.map] at h
      injection h with h
      exact h.symm

/-- Claim C9: the compression block of the metadata is a function of the
current filename's content only — an object over a gzip file reports
`compressed = True`, and after updating `filename` to an uncompressed
file the next metadata serialization carries no compression key at all:
nothing is carried over, the block is recomputed from the new file. -/
theorem compression_recomputed_on_filename_update
    (fs : FS) (o o' : Obj) (c1 c2 : List Nat) (f2 : String)
    (hcs : 0 < o.chunkSize)
    (hab : o.modeDef.allowCompression = true)
    (hfile1 : fs o.fname = some c1)
    (hmagic : startsWithBytes gzipMagic c1 = true)
    (hlen : 18 ≤ c1.length)
    (hupd : o.update "filename" (.str f2) = .ok o')
    (hdecl : "filename" ∈ declaredKeys o.modeDef)
    (hf2 : fs f2 = some c2)
    (hnofmt : getCompressorFormat fs f2 = none)
    (hstale1 : lookupVal "compressed" o.values = none)
    (hstale2 : lookupVal "required-uncompressed-size" o.values = none)
    (hnodflt : ∀ od ∈ o.modeDef.options,
      od.metadata = "compressed" ∨ od.metadata = "required-uncompressed-size" →
      od.dflt = none) :
    (∃ m₁, Obj.metadata fs o = .ok m₁ ∧
      lookupVal "compressed" m₁ = some (.bool true)) ∧
    (∃ m₂, Obj.metadata fs o' = .ok m₂ ∧
      lookupVal "compressed" m₂ = none ∧
      lookupVal "required-uncompressed-size" m₂ = none) := by
  have ho' := update_ok_inversion o "filename" (.str f2) o' hupd
  subst ho'
  constructor
  · obtain ⟨m₁, hm₁, hc₁, _⟩ :=
      metadata_gzip_keys fs o c1 hcs hab hfile1 hmagic hlen
    exact ⟨m₁, hm₁, hc₁⟩
  · have hfname' : Obj.fname
        { o with values := resolveOptions o.modeDef (setVal "filename" (.str f2) o.values) } =
          f2 := by
      unfold Obj.fname
      rw [lookupVal_resolveOptions_some o.modeDef _ _ (.str f2)
        (lookupVal_setVal_self _ _ _) hdecl]
    refine metadata_no_compression_keys fs _ c2 hcs hab ?_ ?_ ?_ ?_
    · rw [hfname']
      exact hf2
    · rw [hfname']
      exact hnofmt
    · exact lookupVal_resolveOptions_none o.modeDef _ _
        (fun od hod hk => hnodflt od hod (Or.inl hk))
        (by
          rw [lookupVal_setVal_ne _ _ _ _ (by decide)]
          exact hstale1)
    · exact lookupVal_resolveOptions_none o.modeDef _ _
        (fun od hod hk => hnodflt od hod (Or.inr hk))
        (by
          rw [lookupVal_setVal_ne _ _ _ _ (by decide)]
          exact hstale2)

/-- Witness for C9: the gzip sample object reports `compressed = True`;
after updating its filename to the uncompressed `base.txt`, the next
metadata serialization carries no compression key. -/
theorem compression_recomputed_on_filename_update_witness :
    (∃ m₁, Obj.metadata sampleFS sampleGzipObj = .ok m₁ ∧
      lookupVal "compressed" m₁ = some (.bool true)) ∧
    (∃ m₂, Obj.metadata sampleFS
        ⟨rawMode, [("filename", .str "base.txt"), ("target-type", .str "device"),
                   ("target", .str "/dev/sda"), ("install-condition", .str "always")],
         1⟩ = .ok m₂ ∧
      lookupVal "compressed" m₂ = none ∧
      lookupVal "required-uncompressed-size" m₂ = none) :=
  compression_recomputed_on_filename_update sampleFS sampleGzipObj
    ⟨rawMode, [("filename", .str "base.txt"), ("target-type", .str "device"),
               ("target", .str "/dev/sda"), ("install-condition", .str "always")], 1⟩
    gzipSample spamBytes "base.txt"
    (by decide) rfl rfl (by decide) (by decide) rfl (by decide) rfl rfl
    rfl rfl (by decide)

/-- Witness for C8: the gzip sample object reports `compressed = True`
with the trailer's plaintext size, and the raw object over the
uncompressed `base.txt` reports neither compression key. -/
theorem compression_metadata_keys_witness :
    (∃ m, Obj.metadata sampleFS sampleGzipObj = .ok m ∧
      lookupVal "compressed" m = some (.bool true) ∧
      lookupVal "required-uncompressed-size" m =
        some (.nat (le32 (lastBytes 4 gzipSample)))) ∧
    (∃ m, Obj.metadata sampleFS plainRawObj = .ok m ∧
      lookupVal "compressed" m = none ∧
      lookupVal "required-uncompressed-size" m = none) :=
  ⟨(compression_metadata_keys sampleFS sampleGzipObj gzipSample
      (by decide) rfl rfl).1 (by decide) (by decide),
   (compression_metadata_keys sampleFS plainRawObj spamBytes
      (by decide) rfl rfl).2 rfl rfl rfl⟩

/-! ## The signing test vector -/

/-- Counterexample to C1 as stated: deriving the signing key by
HMAC-SHA256 keyed by the shared secret alone — the pipeline the claim
describes — does not produce the asserted authorization value at the
fixed inputs. -/
theorem claim_signing_pipeline_counterexample :
    claimV1Signature fixedSigRequest "123ACCESSID" "SECRET" ≠
      "EFOTA-V1 Credential=123ACCESSID, SignedHeaders=bar;foo;host;timestamp, Signature=d826360e77d1d35c16342aa3188529fefa37a63717acc391a8ccb2ec7dc053ca" := by
  decide

/-- Claim C1 (amended): the V1 transform — SHA-256 of the canonical
string; 3-line message of scheme id, `YYYYMMDDTHHMMSSZ` timestamp and the
hex hash; signing key = HMAC-SHA256 keyed by the scheme-prefixed secret
string `"EFOTA-V1-" ++ secret` over the date-only `YYYYMMDD` portion,
hex-encoded; final signature = HMAC-SHA256 keyed by the hex signing key
over the message — reproduces at the fixed inputs both the repository's
recorded signing key and, byte for byte, the asserted authorization
value. -/
theorem efota_v1_signature_vector :
    sigKey "SECRET" fixedSigRequest =
      "19fbc0211973906c184462dc765703b4d44a18bbe78624bf2abfc46c49c20c29" ∧
    efotaV1Signature fixedSigRequest "123ACCESSID" "SECRET" =
      "EFOTA-V1 Credential=123ACCESSID, SignedHeaders=bar;foo;host;timestamp, Signature=d826360e77d1d35c16342aa3188529fefa37a63717acc391a8ccb2ec7dc053ca" := by
  constructor
  · decide
  · decide

end Uhu
